import Mathlib

/-!
Verification of the payments engine.

Shallow embedding of the repository's core: the account aggregate
(src/domain.rs), the aggregate root protocol (src/core/aggregate.rs),
the in-memory event store (src/core/store.rs), the event-sourced
repository (src/core/repository.rs), the command service and ingestion
runtime (src/runtime.rs, src/lib.rs).

Modelling conventions:
* Monetary amounts (`rust_decimal::Decimal`, exact arithmetic) are
  modelled as rationals (`Rat`).
* `u16` client ids, `u32` transaction ids and `u64` stream versions are
  modelled as `Nat` (no claim exercises integer overflow).
* `HashMap` is modelled as an association list with insert-or-replace
  semantics (`ainsert`) and first-match lookup (`alookup`); the code
  never iterates over a map, so only the key-value behaviour matters.
* `Envelope<T>` carries only its `message` field (its equality is the
  message's equality), so events are carried directly.
* Rust functions returning `Result` become functions returning an
  explicit result type; a `panic!`/`unreachable!` is a distinguished
  `panics` outcome.  Methods taking `&mut self` become functions from
  the receiver to (new receiver, outcome); an early `return Err(..)`
  yields the receiver unchanged, exactly as the source performs no
  mutation before such a return.
-/

/-- Association-list lookup (models `HashMap::get`). -/
def alookup {ι β : Type} [DecidableEq ι] : List (ι × β) → ι → Option β
  | [], _ => none
  | (k, v) :: rest, k' => if k = k' then some v else alookup rest k'

/-- Association-list insert-or-replace (models `HashMap::insert`). -/
def ainsert {ι β : Type} [DecidableEq ι] : List (ι × β) → ι → β → List (ι × β)
  | [], k, v => [(k, v)]
  | (k', v') :: rest, k, v =>
    if k' = k then (k', v) :: rest else (k', v') :: ainsert rest k v

/-- Transaction type enum (src/domain.rs `TransactionType`). -/
inductive TransactionType where
  | deposit
  | withdrawal
  | dispute
  | resolve
  | chargeback
  deriving DecidableEq

/-- Dispute status of a past transaction (src/domain.rs `Status`). -/
inductive Status where
  | ok
  | disputed
  | resolved
  | chargedBack
  | declined
  deriving DecidableEq

/-- Inbound transaction / command payload (src/domain.rs `Transaction`). -/
structure Transaction where
  status : Status
  client_id : Nat
  tx_id : Nat
  transaction_type : TransactionType
  amount : Option Rat
  deriving DecidableEq

/-- src/domain.rs `Transaction::can_be_disputed`. -/
def Transaction.can_be_disputed (t : Transaction) : Bool :=
  t.status = Status.ok &&
    (t.transaction_type = TransactionType.withdrawal ||
     t.transaction_type = TransactionType.deposit)

/-- src/domain.rs `Transaction::can_complete_dispute`. -/
def Transaction.can_complete_dispute (t : Transaction) : Bool :=
  t.status = Status.disputed &&
    (t.transaction_type = TransactionType.withdrawal ||
     t.transaction_type = TransactionType.deposit)

/-- Domain events (src/domain.rs `TransactionEvent`). -/
inductive TransactionEvent where
  | wasOpened (tx_id : Nat) (account_holder_id : Nat) (transaction : Transaction)
  | depositWasRecorded (amount : Rat) (transaction : Transaction)
  | withdrawalWasRecorded (amount : Rat) (transaction : Transaction)
  | disputeWasRecorded (tx_id : Nat) (amount : Rat)
  | resolveWasRecorded (tx_id : Nat) (amount : Rat)
  | chargebackWasRecorded (tx_id : Nat) (amount : Rat)
  deriving DecidableEq

/-- Domain errors (src/domain.rs `BankAccountError`). -/
inductive BankAccountError where
  | notOpenedYet
  | alreadyOpened
  | negativeTransactionAttempted (tx : Nat)
  | noMoneyDeposited
  | insufficientFunds
  | wrongTransactionRecipient (tx : Nat)
  | duplicateTransactionRecipient (tx : Nat)
  | invalidTransactionDispute
  | invalidTransactionChargeBack
  | insufficientHeldFunds
  | lockedAccount (id : Nat) (tx : Nat)
  deriving DecidableEq

/-- Account balance (src/domain.rs `Balance`). -/
structure Balance where
  available : Rat
  held : Rat
  deriving DecidableEq

/-- Aggregate state (src/domain.rs `Account`). -/
structure Account where
  id : Nat
  balance : Balance
  pending_transactions : List (Nat × Transaction)
  locked : Bool
  deriving DecidableEq

/-- Outcome of `Account::apply`: success, domain error, or the
`unreachable!()` panic in the `Entry::Vacant` branches. -/
inductive ApplyResult where
  | ok (account : Account)
  | err (e : BankAccountError)
  | panics
  deriving DecidableEq

/-- src/domain.rs `Account::apply` (the `Aggregate` impl), translated
branch by branch.  The `entry(tx_id).and_modify(..)` call first updates
the stored transaction's status and the subsequent guards inspect the
modified entry; on an error the whole modified account is discarded
(`apply` consumes a clone of the state). -/
def Account.apply (state : Option Account) (event : TransactionEvent) : ApplyResult :=
  match state with
  | none =>
    match event with
    | .wasOpened tx_id account_holder_id transaction =>
      match transaction.amount with
      | none => .err .noMoneyDeposited
      | some amount =>
        if amount < 0 then .err (.negativeTransactionAttempted tx_id)
        else .ok { id := account_holder_id
                   balance := { available := amount, held := 0 }
                   pending_transactions := [(tx_id, transaction)]
                   locked := false }
    | _ => .err .notOpenedYet
  | some account =>
    match event with
    | .wasOpened _ _ _ => .err .alreadyOpened
    | .depositWasRecorded amount transaction =>
      .ok { account with
            balance.available := account.balance.available + amount
            pending_transactions :=
              ainsert account.pending_transactions transaction.tx_id transaction }
    | .withdrawalWasRecorded amount transaction =>
      .ok { account with
            balance.available := account.balance.available - amount
            pending_transactions :=
              ainsert account.pending_transactions transaction.tx_id transaction }
    | .disputeWasRecorded tx_id amount =>
      match alookup account.pending_transactions tx_id with
      | none => .panics
      | some tx0 =>
        let tx := { tx0 with status := Status.disputed }
        let pending := ainsert account.pending_transactions tx_id tx
        match tx.transaction_type with
        | .deposit =>
          .ok { account with
                balance.available := account.balance.available - amount
                balance.held := account.balance.held + amount
                pending_transactions := pending }
        | .withdrawal =>
          .ok { account with
                balance.available :=
                  if amount ≤ account.balance.available then
                    account.balance.available - amount
                  else account.balance.available
                balance.held := account.balance.held + amount
                pending_transactions := pending }
        | _ => .err .invalidTransactionDispute
    | .resolveWasRecorded tx_id amount =>
      match alookup account.pending_transactions tx_id with
      | none => .panics
      | some tx0 =>
        let tx := { tx0 with status := Status.ok }
        let pending := ainsert account.pending_transactions tx_id tx
        match tx.transaction_type with
        | .deposit | .withdrawal =>
          if amount ≤ account.balance.held then
            .ok { account with
                  balance.held := account.balance.held - amount
                  balance.available := account.balance.available + amount
                  pending_transactions := pending }
          else .err .insufficientHeldFunds
        | _ => .err .insufficientHeldFunds
    | .chargebackWasRecorded tx_id amount =>
      match alookup account.pending_transactions tx_id with
      | none => .panics
      | some tx0 =>
        let tx := { tx0 with status := Status.chargedBack }
        let pending := ainsert account.pending_transactions tx_id tx
        match tx.transaction_type with
        | .deposit | .withdrawal =>
          if amount ≤ account.balance.held then
            .ok { account with
                  balance.held := account.balance.held - amount
                  pending_transactions := pending
                  locked := true }
          else .err .invalidTransactionChargeBack
        | _ => .err .invalidTransactionChargeBack

/-- Aggregate root (src/core/aggregate.rs `Root<T>`), specialised to the
only aggregate of the program, `Account`. -/
structure Root where
  aggregate : Account
  version : Nat
  recorded_events : List TransactionEvent
  deriving DecidableEq

/-- Outcome of a `&mut self` command method: `Ok(())`, a domain error,
or a panic bubbling out of `apply`. -/
inductive COut where
  | ok
  | err (e : BankAccountError)
  | panics
  deriving DecidableEq

/-- src/core/aggregate.rs `Root::record_that`: applies the event to the
current state; on success updates state, appends the event to the
uncommitted buffer and increments the version; on an error the receiver
is untouched (the assignment never runs). -/
def Root.record_that (r : Root) (event : TransactionEvent) : Root × COut :=
  match Account.apply (some r.aggregate) event with
  | .ok a =>
    ({ aggregate := a
       version := r.version + 1
       recorded_events := r.recorded_events ++ [event] }, .ok)
  | .err e => (r, .err e)
  | .panics => (r, .panics)

/-- Result of constructing a fresh root. -/
inductive RootRes where
  | ok (r : Root)
  | err (e : BankAccountError)
  | panics
  deriving DecidableEq

/-- src/core/aggregate.rs `Root::record_new`. -/
def Root.record_new (event : TransactionEvent) : RootRes :=
  match Account.apply none event with
  | .ok a => .ok { aggregate := a, version := 1, recorded_events := [event] }
  | .err e => .err e
  | .panics => .panics

/-- src/domain.rs `BankAccountRoot::open` (`open` is a Lean keyword). -/
def openAccount (transaction : Transaction) : RootRes :=
  Root.record_new
    (.wasOpened transaction.tx_id transaction.client_id transaction)

/-- src/domain.rs `BankAccountRoot::deposit`. -/
def Root.deposit (r : Root) (transaction : Transaction) : Root × COut :=
  if r.aggregate.locked then
    (r, .err (.lockedAccount transaction.client_id transaction.tx_id))
  else
    match transaction.amount with
    | none => (r, .err .noMoneyDeposited)
    | some amount =>
      if amount < 0 then
        (r, .err (.negativeTransactionAttempted transaction.tx_id))
      else if (alookup r.aggregate.pending_transactions transaction.tx_id).isSome then
        (r, .err (.duplicateTransactionRecipient transaction.tx_id))
      else
        r.record_that (.depositWasRecorded amount transaction)

/-- src/domain.rs `BankAccountRoot::withdrawal`.  Note the funds check
precedes the duplicate check in the source. -/
def Root.withdrawal (r : Root) (transaction : Transaction) : Root × COut :=
  if r.aggregate.locked then
    (r, .err (.lockedAccount transaction.client_id transaction.tx_id))
  else
    match transaction.amount with
    | none => (r, .err .noMoneyDeposited)
    | some amount =>
      if amount < 0 then
        (r, .err (.negativeTransactionAttempted transaction.tx_id))
      else if r.aggregate.balance.available < amount then
        (r, .err .insufficientFunds)
      else if (alookup r.aggregate.pending_transactions transaction.tx_id).isSome then
        (r, .err (.duplicateTransactionRecipient transaction.tx_id))
      else
        r.record_that (.withdrawalWasRecorded amount transaction)

/-- src/domain.rs `BankAccountRoot::dispute`. -/
def Root.dispute (r : Root) (transaction : Transaction) : Root × COut :=
  if r.aggregate.locked then
    (r, .err (.lockedAccount transaction.client_id transaction.tx_id))
  else
    match alookup r.aggregate.pending_transactions transaction.tx_id with
    | some disputed_tx =>
      if disputed_tx.can_be_disputed then
        match disputed_tx.amount with
        | none => (r, .err .noMoneyDeposited)
        | some amount =>
          r.record_that (.disputeWasRecorded disputed_tx.tx_id amount)
      else (r, .err (.wrongTransactionRecipient transaction.tx_id))
    | none => (r, .err (.wrongTransactionRecipient transaction.tx_id))

/-- src/domain.rs `BankAccountRoot::resolve`. -/
def Root.resolve (r : Root) (transaction : Transaction) : Root × COut :=
  if r.aggregate.locked then
    (r, .err (.lockedAccount transaction.client_id transaction.tx_id))
  else
    match alookup r.aggregate.pending_transactions transaction.tx_id with
    | some disputed_tx =>
      if disputed_tx.can_complete_dispute then
        match disputed_tx.amount with
        | none => (r, .err .noMoneyDeposited)
        | some amount =>
          r.record_that (.resolveWasRecorded disputed_tx.tx_id amount)
      else (r, .err (.wrongTransactionRecipient transaction.tx_id))
    | none => (r, .err (.wrongTransactionRecipient transaction.tx_id))

/-- src/domain.rs `BankAccountRoot::chargeback`. -/
def Root.chargeback (r : Root) (transaction : Transaction) : Root × COut :=
  if r.aggregate.locked then
    (r, .err (.lockedAccount transaction.client_id transaction.tx_id))
  else
    match alookup r.aggregate.pending_transactions transaction.tx_id with
    | some disputed_tx =>
      if disputed_tx.can_complete_dispute then
        match disputed_tx.amount with
        | none => (r, .err .noMoneyDeposited)
        | some amount =>
          r.record_that (.chargebackWasRecorded disputed_tx.tx_id amount)
      else (r, .err (.wrongTransactionRecipient transaction.tx_id))
    | none => (r, .err (.wrongTransactionRecipient transaction.tx_id))

/-- Floor of a rational as an integer (`q.den` is positive). -/
def dFloor (q : Rat) : Int := q.num.fdiv q.den

/-- Round to the nearest integer, ties to the even neighbour — the
`MidpointNearestEven` strategy used by `rust_decimal`'s `round_dp`. -/
def roundHalfEven (q : Rat) : Int :=
  let f := dFloor q
  let frac := q - (f : Rat)
  if frac < 1/2 then f
  else if 1/2 < frac then f + 1
  else if f % 2 = 0 then f else f + 1

/-- `Decimal::round_dp(4)`: round to four decimal places. -/
def roundDp4 (q : Rat) : Rat := (roundHalfEven (q * 10000) : Rat) / 10000

/-- Snapshot row (src/domain.rs `AccountSnapShot`). -/
structure AccountSnapShot where
  client : Nat
  available : Rat
  held : Rat
  total : Rat
  locked : Bool
  deriving DecidableEq

/-- src/domain.rs `BankAccountRoot::snapshot`. -/
def Root.snapshot (r : Root) : AccountSnapShot :=
  { client := r.aggregate.id
    available := roundDp4 r.aggregate.balance.available
    held := roundDp4 r.aggregate.balance.held
    total := roundDp4 (r.aggregate.balance.available + r.aggregate.balance.held)
    locked := r.aggregate.locked }

/-- src/core/aggregate.rs `Root::rehydrate_from`: first event of a
replay; the uncommitted buffer stays empty. -/
def Root.rehydrate_from (event : TransactionEvent) : RootRes :=
  match Account.apply none event with
  | .ok a => .ok { aggregate := a, version := 1, recorded_events := [] }
  | .err e => .err e
  | .panics => .panics

/-- src/core/aggregate.rs `Root::apply_rehydrated_event`. -/
def Root.apply_rehydrated_event (r : Root) (event : TransactionEvent) : RootRes :=
  match Account.apply (some r.aggregate) event with
  | .ok a =>
    .ok { aggregate := a, version := r.version + 1
          recorded_events := r.recorded_events }
  | .err e => .err e
  | .panics => .panics

/-- Outcome of a replay: `ok none` for an empty stream. -/
inductive RehydrateRes where
  | ok (r : Option Root)
  | err (e : BankAccountError)
  | panics
  deriving DecidableEq

/-- The `try_fold` inside src/core/aggregate.rs `Root::rehydrate`. -/
def rehydrateLoop (ctx : Option Root) : List TransactionEvent → RehydrateRes
  | [] => .ok ctx
  | event :: rest =>
    match (match ctx with
           | none => Root.rehydrate_from event
           | some r => r.apply_rehydrated_event event) with
    | .ok r => rehydrateLoop (some r) rest
    | .err e => .err e
    | .panics => .panics

/-- src/core/aggregate.rs `Root::rehydrate`. -/
def Root.rehydrate (events : List TransactionEvent) : RehydrateRes :=
  rehydrateLoop none events

/-- A persisted event (src/core/store.rs `Persisted`). -/
structure Persisted (ι α : Type) where
  stream_id : ι
  version : Nat
  event : α
  deriving DecidableEq

/-- Optimistic-concurrency check (src/core/store.rs `Check`). -/
inductive Check where
  | any
  | mustBe (v : Nat)
  deriving DecidableEq

/-- src/core/store.rs `ConflictError`. -/
structure ConflictError where
  expected : Nat
  actual : Nat
  deriving DecidableEq

/-- src/core/store.rs `AppendError`; `InMemory` never produces
`internal`. -/
inductive AppendError where
  | conflict (c : ConflictError)
  | internal
  deriving DecidableEq

/-- In-memory event store: the backend's `stream_id → Vec<Persisted>`
map (src/core/store.rs `InMemoryBackend`). -/
structure InMemory (ι α : Type) where
  event_streams : List (ι × List (Persisted ι α))
  deriving DecidableEq

def InMemory.empty {ι α : Type} : InMemory ι α := { event_streams := [] }

/-- The recorded events of one stream, empty when the id is absent. -/
def InMemory.streamOf {ι α : Type} [DecidableEq ι]
    (s : InMemory ι α) (id : ι) : List (Persisted ι α) :=
  (alookup s.event_streams id).getD []

/-- The stream's last version, `0` when absent or empty
(`…map(|event| event.version).unwrap_or_default()`). -/
def InMemory.lastVersion {ι α : Type} [DecidableEq ι]
    (s : InMemory ι α) (id : ι) : Nat :=
  ((s.streamOf id).getLast?.map (·.version)).getD 0

/-- `events.into_iter().enumerate().map(..)`: wrap the events with
versions `last + 1`, `last + 2`, …. -/
def persistFrom {ι α : Type} (id : ι) : Nat → List α → List (Persisted ι α)
  | _, [] => []
  | v, e :: rest =>
    { stream_id := id, version := v + 1, event := e } :: persistFrom id (v + 1) rest

/-- src/core/store.rs `InMemory::append`, returning the result together
with the store after the call (the conflict path mutates nothing). -/
def InMemory.append {ι α : Type} [DecidableEq ι] (s : InMemory ι α) (id : ι)
    (version_check : Check) (events : List α) :
    Except AppendError Nat × InMemory ι α :=
  let last := s.lastVersion id
  let conflict : Option ConflictError :=
    match version_check with
    | .mustBe expected =>
      if last ≠ expected then some { expected := expected, actual := last } else none
    | .any => none
  match conflict with
  | some c => (.error (.conflict c), s)
  | none =>
    let persisted := persistFrom id last events
    let new_last := (persisted.getLast?.map (·.version)).getD 0
    let streams :=
      match alookup s.event_streams id with
      | some old => ainsert s.event_streams id (old ++ persisted)
      | none => s.event_streams ++ [(id, persisted)]
    (.ok new_last, { event_streams := streams })

instance {ε α : Type} [DecidableEq ε] [DecidableEq α] :
    DecidableEq (Except ε α) := fun a b =>
  match a, b with
  | .ok x, .ok y =>
    if h : x = y then .isTrue (by rw [h]) else .isFalse (by simp [h])
  | .error x, .error y =>
    if h : x = y then .isTrue (by rw [h]) else .isFalse (by simp [h])
  | .ok _, .error _ => .isFalse (by simp)
  | .error _, .ok _ => .isFalse (by simp)

/-- src/core/repository.rs `GetError`; `internal` carries the domain
error raised while replaying a corrupt stream (wrapped into `anyhow`
in the source). -/
inductive GetError where
  | notFound
  | internal (e : BankAccountError)
  deriving DecidableEq

/-- Outcome of `EventSourced::get`. -/
inductive GetRes where
  | ok (r : Root)
  | err (e : GetError)
  | panics
  deriving DecidableEq

/-- The full event payloads of the stream for `id`, in recorded order
(`stream(id, VersionSelect::All)` projected by `EventSourced::get`). -/
def InMemory.streamAll (s : InMemory Nat TransactionEvent) (id : Nat) :
    List TransactionEvent :=
  (s.streamOf id).map (·.event)

/-- src/core/repository.rs `EventSourced::get`. -/
def repoGet (s : InMemory Nat TransactionEvent) (id : Nat) : GetRes :=
  match Root.rehydrate (s.streamAll id) with
  | .ok none => .err .notFound
  | .ok (some r) => .ok r
  | .err e => .err (.internal e)
  | .panics => .panics

/-- src/core/repository.rs `SaveError`. -/
inductive SaveError where
  | conflict (c : ConflictError)
  | internal
  deriving DecidableEq

/-- src/core/repository.rs `EventSourced::save`: drain the uncommitted
buffer; empty buffer succeeds without touching the store; otherwise
append with `MustBe(version - len(buffer))`.  Returns the store after
the call (unchanged when the append conflicts). -/
def repoSave (s : InMemory Nat TransactionEvent) (r : Root) :
    Except SaveError (InMemory Nat TransactionEvent) :=
  if r.recorded_events = [] then .ok s
  else
    match s.append r.aggregate.id
        (.mustBe (r.version - r.recorded_events.length)) r.recorded_events with
    | (.ok _, s') => .ok s'
    | (.error (.conflict c), _) => .error (.conflict c)
    | (.error .internal, _) => .error .internal

/-- Error of `Service::handle` (the source erases these into
`anyhow::Error`; the payloads stay distinguishable). -/
inductive HandleErr where
  | domain (e : BankAccountError)
  | get (e : GetError)
  | save (e : SaveError)
  deriving DecidableEq

/-- Outcome of `Service::handle`, with the store after the call. -/
inductive HandleRes where
  | ok (s : InMemory Nat TransactionEvent)
  | err (e : HandleErr)
  | panics
  deriving DecidableEq

/-- The shared get → mutate → save sequence of the four non-deposit
arms of `Service::handle`; all errors propagate via `?`. -/
def handleExisting (s : InMemory Nat TransactionEvent) (t : Transaction)
    (method : Root → Transaction → Root × COut) : HandleRes :=
  match repoGet s t.client_id with
  | .ok root =>
    match method root t with
    | (root', .ok) =>
      match repoSave s root' with
      | .ok s' => .ok s'
      | .error e => .err (.save e)
    | (_, .err e) => .err (.domain e)
    | (_, .panics) => .panics
  | .err e => .err (.get e)
  | .panics => .panics

/-- src/runtime.rs `Service::handle`.  In the `Deposit` arm the source
matches `Err(_err) if matches!(GetError::NotFound, _err)`: the guard
tests `GetError::NotFound` against the irrefutable binding pattern
`_err`, so it is true for every error; every `get` error — `NotFound`
or `Internal` — takes the open-a-new-account arm, and the final
`Err(_err) => ()` arm is dead code. -/
def handle (s : InMemory Nat TransactionEvent) (t : Transaction) : HandleRes :=
  match t.transaction_type with
  | .deposit =>
    match repoGet s t.client_id with
    | .ok root =>
      match root.deposit t with
      | (root', .ok) =>
        match repoSave s root' with
        | .ok s' => .ok s'
        | .error e => .err (.save e)
      | (_, .err e) => .err (.domain e)
      | (_, .panics) => .panics
    | .err _ =>
      match openAccount t with
      | .ok root =>
        match repoSave s root with
        | .ok s' => .ok s'
        | .error e => .err (.save e)
      | .err e => .err (.domain e)
      | .panics => .panics
    | .panics => .panics
  | .withdrawal => handleExisting s t Root.withdrawal
  | .dispute => handleExisting s t Root.dispute
  | .resolve => handleExisting s t Root.resolve
  | .chargeback => handleExisting s t Root.chargeback

/-- `BTreeSet::insert` on an ascending duplicate-free list. -/
def sortedInsert (x : Nat) : List Nat → List Nat
  | [] => [x]
  | y :: rest =>
    if x < y then x :: y :: rest
    else if x = y then y :: rest
    else y :: sortedInsert x rest

/-- The consumer loop of src/runtime.rs `Runtime::run`: record the
client id into the observed set, handle the transaction, log and
continue on a service error; a panic aborts the run (`none`). -/
def processAll (s : InMemory Nat TransactionEvent) (obs : List Nat) :
    List Transaction → Option (InMemory Nat TransactionEvent × List Nat)
  | [] => some (s, obs)
  | t :: rest =>
    match handle s t with
    | .ok s' => processAll s' (sortedInsert t.client_id obs) rest
    | .err _ => processAll s (sortedInsert t.client_id obs) rest
    | .panics => none

/-- Outcome of the snapshot-emission loop. -/
inductive EmitRes where
  | ok (rows : List AccountSnapShot)
  | err (e : GetError)
  | panics
  deriving DecidableEq

/-- The snapshot-emission loop of src/lib.rs `run`: for each observed
id in order, `get` the account — the `?` aborts the run on failure —
and serialize its snapshot. -/
def emit (s : InMemory Nat TransactionEvent) : List Nat → EmitRes
  | [] => .ok []
  | id :: rest =>
    match repoGet s id with
    | .ok root =>
      match emit s rest with
      | .ok rows => .ok (root.snapshot :: rows)
      | other => other
    | .err e => .err e
    | .panics => .panics

/-- Dispatch a command to the root method named by its transaction
type, as the service does. -/
def execCmd (r : Root) (t : Transaction) : Root × COut :=
  match t.transaction_type with
  | .deposit => r.deposit t
  | .withdrawal => r.withdrawal t
  | .dispute => r.dispute t
  | .resolve => r.resolve t
  | .chargeback => r.chargeback t

/-- Run a command sequence on a live root; `none` unless every command
succeeds. -/
def execAll (r : Root) : List Transaction → Option Root
  | [] => some r
  | t :: rest =>
    match execCmd r t with
    | (r', .ok) => execAll r' rest
    | _ => none

/-- Account-root states reachable through the `BankAccountRoot` command
methods: a successful `open` followed by any sequence of successful
command-method calls (a failing call leaves the root unchanged, so
only successful calls produce new states). -/
inductive Reachable : Root → Prop
  | opened (t : Transaction) (r : Root) :
      openAccount t = .ok r → Reachable r
  | step (r r' : Root) (t : Transaction) :
      Reachable r → execCmd r t = (r', .ok) → Reachable r'

instance : Inhabited Root :=
  ⟨{ aggregate := { id := 0, balance := { available := 0, held := 0 }
                    pending_transactions := [], locked := false }
     version := 0, recorded_events := [] }⟩

/-- Concrete transactions for witnesses and counterexamples: a deposit
of 10 (tx 1), a withdrawal of 10 (tx 2), a dispute of tx 1, and a
deposit carrying no amount, all for client 1. -/
def txDep1 : Transaction :=
  { status := .ok, client_id := 1, tx_id := 1
    transaction_type := .deposit, amount := some 10 }

def txWd2 : Transaction :=
  { status := .ok, client_id := 1, tx_id := 2
    transaction_type := .withdrawal, amount := some 10 }

def txDis1 : Transaction :=
  { status := .ok, client_id := 1, tx_id := 1
    transaction_type := .dispute, amount := none }

def txNoAmount : Transaction :=
  { status := .ok, client_id := 1, tx_id := 3
    transaction_type := .deposit, amount := none }

/-- The root produced by a successful `open`, junk on failure. -/
def afterOpen (t : Transaction) : Option Root :=
  match openAccount t with
  | .ok r => some r
  | _ => none

/-- The reachable chain open(txDep1); withdrawal(txWd2); dispute(txDis1):
after the withdrawal `available = 0`; the dispute targets the deposit
tx 1, so `available` drops to `-10` while `held` rises to `10`. -/
def cexRoot1 : Root := (afterOpen txDep1).getD default

def cexRoot2 : Root := ((afterOpen txDep1).bind (execAll · [txWd2])).getD default

def cexRoot3 : Root :=
  ((afterOpen txDep1).bind (execAll · [txWd2, txDis1])).getD default

/-- A locked account root. -/
def lockedRoot : Root :=
  { aggregate := { id := 1, balance := { available := 5, held := 0 }
                   pending_transactions := [(1, txDep1)], locked := true }
    version := 2
    recorded_events := [] }

unseal Rat.add Rat.sub Rat.mul Rat.inv in
example : cexRoot2.aggregate.balance.available = 0 := by decide

unseal Rat.add Rat.sub Rat.mul Rat.inv in
example : cexRoot3.aggregate.balance.available = -10 ∧
    cexRoot3.aggregate.balance.held = 10 := by decide

/-- A store is well-formed when every root that the repository's `get`
can load from a stream `k` carries `k` as its account id.  The pipeline
only ever appends a client's events to that client's own stream, so the
store it builds stays well-formed. -/
def StoreWF (s : InMemory Nat TransactionEvent) : Prop :=
  ∀ k r, repoGet s k = .ok r → r.aggregate.id = k

/-- The pipeline run on the single input `deposit 10 (client 1, tx 1)`;
used as the witness run. -/
def pipeRun1 : InMemory Nat TransactionEvent × List Nat :=
  (processAll InMemory.empty [] [txDep1]).getD (InMemory.empty, [])

/-- A store over plain `Nat` events holding one stream (id 1) with a
single event at version 1; used by the store-level witnesses. -/
def natStore1 : InMemory Nat Nat :=
  { event_streams := [(1, [{ stream_id := 1, version := 1, event := 7 }])] }

/-- A corrupt store: the stream for client 1 starts with a
`DepositWasRecorded` event, so rehydration fails with `NotOpenedYet`
and the repository's `get` surfaces `Internal`. -/
def corruptStore : InMemory Nat TransactionEvent :=
  { event_streams :=
      [(1, [{ stream_id := 1, version := 1
              event := .depositWasRecorded 10 txDep1 }])] }

/-- Invariant of accounts reachable through the command methods: held
funds are non-negative, and every pending entry is keyed by its own
transaction id and carries a present, non-negative amount. -/
def AccountInv (a : Account) : Prop :=
  0 ≤ a.balance.held ∧
  ∀ p ∈ a.pending_transactions,
    p.2.tx_id = p.1 ∧ ∃ x, p.2.amount = some x ∧ 0 ≤ x

/- ===================== Theorems ===================== -/

theorem alookup_mem {ι β : Type} [DecidableEq ι] {l : List (ι × β)} {k : ι}
    {v : β} (h : alookup l k = some v) : (k, v) ∈ l := by
  induction l with
  | nil => simp [alookup] at h
  | cons p rest ih =>
    obtain ⟨k', v'⟩ := p
    by_cases hk : k' = k
    · subst hk
      simp [alookup] at h
      simp [h]
    · simp [alookup, hk] at h
      exact List.mem_cons_of_mem _ (ih h)

theorem mem_ainsert {ι β : Type} [DecidableEq ι] {l : List (ι × β)} {k : ι}
    {v : β} {q : ι × β} (h : q ∈ ainsert l k v) : q = (k, v) ∨ q ∈ l := by
  induction l with
  | nil => simpa [ainsert] using h
  | cons p rest ih =>
    obtain ⟨k', v'⟩ := p
    by_cases hk : k' = k
    · subst hk
      simp [ainsert] at h
      rcases h with h | h
      · exact .inl (by simp [h])
      · exact .inr (List.mem_cons_of_mem _ h)
    · simp [ainsert, hk] at h
      rcases h with h | h
      · exact .inr (by simp [h])
      · rcases ih h with h1 | h1
        · exact .inl h1
        · exact .inr (List.mem_cons_of_mem _ h1)

theorem record_that_ok_inversion {r r' : Root} {ev : TransactionEvent}
    (h : r.record_that ev = (r', .ok)) :
    Account.apply (some r.aggregate) ev = .ok r'.aggregate ∧
    r' = { aggregate := r'.aggregate, version := r.version + 1
           recorded_events := r.recorded_events ++ [ev] } := by
  unfold Root.record_that at h
  split at h
  · rename_i a happ
    have h2 : ({ aggregate := a, version := r.version + 1
                 recorded_events := r.recorded_events ++ [ev] } : Root) = r' :=
      congrArg Prod.fst h
    subst h2
    exact ⟨happ, rfl⟩
  · simp at h
  · simp at h

theorem deposit_ok_inversion {r r' : Root} {t : Transaction}
    (h : r.deposit t = (r', .ok)) :
    ∃ amount, r.aggregate.locked = false ∧
      t.amount = some amount ∧ ¬ amount < 0 ∧
      alookup r.aggregate.pending_transactions t.tx_id = none ∧
      r.record_that (.depositWasRecorded amount t) = (r', .ok) := by
  unfold Root.deposit at h
  split at h
  · simp_all
  · rename_i hlock
    split at h
    · simp_all
    · rename_i amount ham
      split at h
      · simp_all
      · split at h
        · simp_all
        · rename_i hneg hdup
          exact ⟨amount, by simpa using hlock, ham, hneg,
                 by simpa using hdup, h⟩

theorem withdrawal_ok_inversion {r r' : Root} {t : Transaction}
    (h : r.withdrawal t = (r', .ok)) :
    ∃ amount, r.aggregate.locked = false ∧
      t.amount = some amount ∧ ¬ amount < 0 ∧
      ¬ r.aggregate.balance.available < amount ∧
      alookup r.aggregate.pending_transactions t.tx_id = none ∧
      r.record_that (.withdrawalWasRecorded amount t) = (r', .ok) := by
  unfold Root.withdrawal at h
  split at h
  · simp_all
  · rename_i hlock
    split at h
    · simp_all
    · rename_i amount ham
      split at h
      · simp_all
      · split at h
        · simp_all
        · split at h
          · simp_all
          · rename_i hneg hins hdup
            exact ⟨amount, by simpa using hlock, ham, hneg, hins,
                   by simpa using hdup, h⟩

theorem dispute_ok_inversion {r r' : Root} {t : Transaction}
    (h : r.dispute t = (r', .ok)) :
    ∃ dtx amount, r.aggregate.locked = false ∧
      alookup r.aggregate.pending_transactions t.tx_id = some dtx ∧
      dtx.can_be_disputed = true ∧ dtx.amount = some amount ∧
      r.record_that (.disputeWasRecorded dtx.tx_id amount) = (r', .ok) := by
  unfold Root.dispute at h
  split at h
  · simp_all
  · rename_i hlock
    split at h
    · rename_i dtx hfound
      split at h
      · rename_i hcan
        split at h
        · simp_all
        · rename_i amount ham
          exact ⟨dtx, amount, by simpa using hlock, hfound, hcan, ham, h⟩
      · simp_all
    · simp_all

theorem resolve_ok_inversion {r r' : Root} {t : Transaction}
    (h : r.resolve t = (r', .ok)) :
    ∃ dtx amount, r.aggregate.locked = false ∧
      alookup r.aggregate.pending_transactions t.tx_id = some dtx ∧
      dtx.can_complete_dispute = true ∧ dtx.amount = some amount ∧
      r.record_that (.resolveWasRecorded dtx.tx_id amount) = (r', .ok) := by
  unfold Root.resolve at h
  split at h
  · simp_all
  · rename_i hlock
    split at h
    · rename_i dtx hfound
      split at h
      · rename_i hcan
        split at h
        · simp_all
        · rename_i amount ham
          exact ⟨dtx, amount, by simpa using hlock, hfound, hcan, ham, h⟩
      · simp_all
    · simp_all

theorem chargeback_ok_inversion {r r' : Root} {t : Transaction}
    (h : r.chargeback t = (r', .ok)) :
    ∃ dtx amount, r.aggregate.locked = false ∧
      alookup r.aggregate.pending_transactions t.tx_id = some dtx ∧
      dtx.can_complete_dispute = true ∧ dtx.amount = some amount ∧
      r.record_that (.chargebackWasRecorded dtx.tx_id amount) = (r', .ok) := by
  unfold Root.chargeback at h
  split at h
  · simp_all
  · rename_i hlock
    split at h
    · rename_i dtx hfound
      split at h
      · rename_i hcan
        split at h
        · simp_all
        · rename_i amount ham
          exact ⟨dtx, amount, by simpa using hlock, hfound, hcan, ham, h⟩
      · simp_all
    · simp_all

/-- `record_that` either succeeds or leaves the receiver untouched. -/
theorem record_that_shape (r : Root) (ev : TransactionEvent) :
    (r.record_that ev).1 = r ∨ (r.record_that ev).2 = .ok := by
  unfold Root.record_that
  cases Account.apply (some r.aggregate) ev <;> simp

theorem deposit_shape (r : Root) (t : Transaction) :
    (r.deposit t).1 = r ∨ (r.deposit t).2 = .ok := by
  unfold Root.deposit
  repeat' split
  all_goals first | exact record_that_shape .. | left; rfl

theorem withdrawal_shape (r : Root) (t : Transaction) :
    (r.withdrawal t).1 = r ∨ (r.withdrawal t).2 = .ok := by
  unfold Root.withdrawal
  repeat' split
  all_goals first | exact record_that_shape .. | left; rfl

theorem dispute_shape (r : Root) (t : Transaction) :
    (r.dispute t).1 = r ∨ (r.dispute t).2 = .ok := by
  unfold Root.dispute
  repeat' split
  all_goals first | exact record_that_shape .. | left; rfl

theorem resolve_shape (r : Root) (t : Transaction) :
    (r.resolve t).1 = r ∨ (r.resolve t).2 = .ok := by
  unfold Root.resolve
  repeat' split
  all_goals first | exact record_that_shape .. | left; rfl

theorem chargeback_shape (r : Root) (t : Transaction) :
    (r.chargeback t).1 = r ∨ (r.chargeback t).2 = .ok := by
  unfold Root.chargeback
  repeat' split
  all_goals first | exact record_that_shape .. | left; rfl

theorem apply_deposit_eq (a : Account) (x : Rat) (tr : Transaction) :
    Account.apply (some a) (.depositWasRecorded x tr) =
      .ok { a with
            balance.available := a.balance.available + x
            pending_transactions := ainsert a.pending_transactions tr.tx_id tr } :=
  rfl

theorem apply_withdrawal_eq (a : Account) (x : Rat) (tr : Transaction) :
    Account.apply (some a) (.withdrawalWasRecorded x tr) =
      .ok { a with
            balance.available := a.balance.available - x
            pending_transactions := ainsert a.pending_transactions tr.tx_id tr } :=
  rfl

theorem apply_dispute_eq (a : Account) (txId : Nat) (x : Rat) (tx0 : Transaction)
    (hl : alookup a.pending_transactions txId = some tx0) :
    Account.apply (some a) (.disputeWasRecorded txId x) =
      match tx0.transaction_type with
      | .deposit =>
        .ok { a with
              balance.available := a.balance.available - x
              balance.held := a.balance.held + x
              pending_transactions :=
                ainsert a.pending_transactions txId { tx0 with status := .disputed } }
      | .withdrawal =>
        .ok { a with
              balance.available :=
                if x ≤ a.balance.available then a.balance.available - x
                else a.balance.available
              balance.held := a.balance.held + x
              pending_transactions :=
                ainsert a.pending_transactions txId { tx0 with status := .disputed } }
      | _ => .err .invalidTransactionDispute := by
  simp only [Account.apply]
  rw [hl]

theorem apply_resolve_eq (a : Account) (txId : Nat) (x : Rat) (tx0 : Transaction)
    (hl : alookup a.pending_transactions txId = some tx0) :
    Account.apply (some a) (.resolveWasRecorded txId x) =
      match tx0.transaction_type with
      | .deposit | .withdrawal =>
        if x ≤ a.balance.held then
          .ok { a with
                balance.held := a.balance.held - x
                balance.available := a.balance.available + x
                pending_transactions :=
                  ainsert a.pending_transactions txId { tx0 with status := .ok } }
        else .err .insufficientHeldFunds
      | _ => .err .insufficientHeldFunds := by
  simp only [Account.apply]
  rw [hl]

theorem apply_chargeback_eq (a : Account) (txId : Nat) (x : Rat) (tx0 : Transaction)
    (hl : alookup a.pending_transactions txId = some tx0) :
    Account.apply (some a) (.chargebackWasRecorded txId x) =
      match tx0.transaction_type with
      | .deposit | .withdrawal =>
        if x ≤ a.balance.held then
          .ok { a with
                balance.held := a.balance.held - x
                pending_transactions :=
                  ainsert a.pending_transactions txId { tx0 with status := .chargedBack }
                locked := true }
        else .err .invalidTransactionChargeBack
      | _ => .err .invalidTransactionChargeBack := by
  simp only [Account.apply]
  rw [hl]

theorem deposit_preserves_inv {r r' : Root} {t : Transaction}
    (hInv : AccountInv r.aggregate) (h : r.deposit t = (r', .ok)) :
    AccountInv r'.aggregate := by
  obtain ⟨x, _, ham, hneg, _, hrec⟩ := deposit_ok_inversion h
  obtain ⟨happ, _⟩ := record_that_ok_inversion hrec
  rw [apply_deposit_eq] at happ
  have hagg : r'.aggregate =
      { r.aggregate with
        balance.available := r.aggregate.balance.available + x
        pending_transactions :=
          ainsert r.aggregate.pending_transactions t.tx_id t } := by
    injection happ with h1
    exact h1.symm
  rw [hagg]
  refine ⟨hInv.1, fun p hp => ?_⟩
  rcases mem_ainsert hp with hnew | hold
  · subst hnew
    exact ⟨rfl, x, ham, not_lt.mp hneg⟩
  · exact hInv.2 p hold

theorem withdrawal_preserves_inv {r r' : Root} {t : Transaction}
    (hInv : AccountInv r.aggregate) (h : r.withdrawal t = (r', .ok)) :
    AccountInv r'.aggregate := by
  obtain ⟨x, _, ham, hneg, _, _, hrec⟩ := withdrawal_ok_inversion h
  obtain ⟨happ, _⟩ := record_that_ok_inversion hrec
  rw [apply_withdrawal_eq] at happ
  have hagg : r'.aggregate =
      { r.aggregate with
        balance.available := r.aggregate.balance.available - x
        pending_transactions :=
          ainsert r.aggregate.pending_transactions t.tx_id t } := by
    injection happ with h1
    exact h1.symm
  rw [hagg]
  refine ⟨hInv.1, fun p hp => ?_⟩
  rcases mem_ainsert hp with hnew | hold
  · subst hnew
    exact ⟨rfl, x, ham, not_lt.mp hneg⟩
  · exact hInv.2 p hold

theorem dispute_preserves_inv {r r' : Root} {t : Transaction}
    (hInv : AccountInv r.aggregate) (h : r.dispute t = (r', .ok)) :
    AccountInv r'.aggregate := by
  obtain ⟨dtx, x, _, hfound, hcan, ham, hrec⟩ := dispute_ok_inversion h
  obtain ⟨happ, _⟩ := record_that_ok_inversion hrec
  obtain ⟨hkey, x', hx', hx0⟩ := hInv.2 (t.tx_id, dtx) (alookup_mem hfound)
  have hx : x = x' := by
    rw [ham] at hx'
    exact (Option.some.injEq ..).mp hx'
  subst hx
  have hl : alookup r.aggregate.pending_transactions dtx.tx_id = some dtx := by
    rw [hkey]
    exact hfound
  rw [apply_dispute_eq _ _ _ _ hl] at happ
  have hheld : (0 : Rat) ≤ r.aggregate.balance.held + x :=
    add_nonneg hInv.1 hx0
  cases htt : dtx.transaction_type <;> rw [htt] at happ
  case deposit =>
    injection happ with h1
    rw [← h1]
    refine ⟨hheld, fun p hp => ?_⟩
    rcases mem_ainsert hp with hnew | hold
    · subst hnew
      exact ⟨rfl, x, ham, hx0⟩
    · exact hInv.2 p hold
  case withdrawal =>
    injection happ with h1
    rw [← h1]
    refine ⟨hheld, fun p hp => ?_⟩
    rcases mem_ainsert hp with hnew | hold
    · subst hnew
      exact ⟨rfl, x, ham, hx0⟩
    · exact hInv.2 p hold
  all_goals exact absurd happ (by simp)

theorem resolve_preserves_inv {r r' : Root} {t : Transaction}
    (hInv : AccountInv r.aggregate) (h : r.resolve t = (r', .ok)) :
    AccountInv r'.aggregate := by
  obtain ⟨dtx, x, _, hfound, hcan, ham, hrec⟩ := resolve_ok_inversion h
  obtain ⟨happ, _⟩ := record_that_ok_inversion hrec
  obtain ⟨hkey, x', hx', hx0⟩ := hInv.2 (t.tx_id, dtx) (alookup_mem hfound)
  have hl : alookup r.aggregate.pending_transactions dtx.tx_id = some dtx := by
    rw [hkey]
    exact hfound
  rw [apply_resolve_eq _ _ _ _ hl] at happ
  cases htt : dtx.transaction_type <;> rw [htt] at happ
  case deposit =>
    split at happ
    · split at happ
      · rename_i hle
        injection happ with h1
        rw [← h1]
        refine ⟨sub_nonneg.mpr hle, fun p hp => ?_⟩
        rcases mem_ainsert hp with hnew | hold
        · subst hnew
          exact ⟨rfl, x', hx', hx0⟩
        · exact hInv.2 p hold
      · exact absurd happ (by simp)
    · rename_i heq
      exact absurd heq (by simp)
    · rename_i hno hnw
      exact absurd rfl hno
  case withdrawal =>
    split at happ
    · rename_i heq
      exact absurd heq (by simp)
    · split at happ
      · rename_i hle
        injection happ with h1
        rw [← h1]
        refine ⟨sub_nonneg.mpr hle, fun p hp => ?_⟩
        rcases mem_ainsert hp with hnew | hold
        · subst hnew
          exact ⟨rfl, x', hx', hx0⟩
        · exact hInv.2 p hold
      · exact absurd happ (by simp)
    · rename_i hnd hnw
      exact absurd rfl hnw
  all_goals exact absurd happ (by simp)

theorem chargeback_preserves_inv {r r' : Root} {t : Transaction}
    (hInv : AccountInv r.aggregate) (h : r.chargeback t = (r', .ok)) :
    AccountInv r'.aggregate := by
  obtain ⟨dtx, x, _, hfound, hcan, ham, hrec⟩ := chargeback_ok_inversion h
  obtain ⟨happ, _⟩ := record_that_ok_inversion hrec
  obtain ⟨hkey, x', hx', hx0⟩ := hInv.2 (t.tx_id, dtx) (alookup_mem hfound)
  have hl : alookup r.aggregate.pending_transactions dtx.tx_id = some dtx := by
    rw [hkey]
    exact hfound
  rw [apply_chargeback_eq _ _ _ _ hl] at happ
  cases htt : dtx.transaction_type <;> rw [htt] at happ
  case deposit =>
    split at happ
    · split at happ
      · rename_i hle
        injection happ with h1
        rw [← h1]
        refine ⟨sub_nonneg.mpr hle, fun p hp => ?_⟩
        rcases mem_ainsert hp with hnew | hold
        · subst hnew
          exact ⟨rfl, x', hx', hx0⟩
        · exact hInv.2 p hold
      · exact absurd happ (by simp)
    · rename_i heq
      exact absurd heq (by simp)
    · rename_i hno hnw
      exact absurd rfl hno
  case withdrawal =>
    split at happ
    · rename_i heq
      exact absurd heq (by simp)
    · split at happ
      · rename_i hle
        injection happ with h1
        rw [← h1]
        refine ⟨sub_nonneg.mpr hle, fun p hp => ?_⟩
        rcases mem_ainsert hp with hnew | hold
        · subst hnew
          exact ⟨rfl, x', hx', hx0⟩
        · exact hInv.2 p hold
      · exact absurd happ (by simp)
    · rename_i hnd hnw
      exact absurd rfl hnw
  all_goals exact absurd happ (by simp)

theorem apply_opened_eq (txId holder : Nat) (tr : Transaction) :
    Account.apply none (.wasOpened txId holder tr) =
      match tr.amount with
      | none => .err .noMoneyDeposited
      | some amount =>
        if amount < 0 then .err (.negativeTransactionAttempted txId)
        else .ok { id := holder, balance := { available := amount, held := 0 }
                   pending_transactions := [(txId, tr)], locked := false } :=
  rfl

theorem openAccount_ok_inversion {t : Transaction} {r : Root}
    (h : openAccount t = .ok r) :
    ∃ amount, t.amount = some amount ∧ ¬ amount < 0 ∧
      r = { aggregate := { id := t.client_id
                           balance := { available := amount, held := 0 }
                           pending_transactions := [(t.tx_id, t)]
                           locked := false }
            version := 1
            recorded_events := [.wasOpened t.tx_id t.client_id t] } := by
  unfold openAccount Root.record_new at h
  split at h
  · rename_i a happ
    rw [apply_opened_eq] at happ
    split at happ
    · exact absurd happ (by simp)
    · rename_i amount ham
      split at happ
      · exact absurd happ (by simp)
      · rename_i hneg
        injection h with h1
        injection happ with h2
        refine ⟨amount, ham, hneg, ?_⟩
        rw [← h1, ← h2]
  · exact absurd h (by simp)
  · exact absurd h (by simp)

theorem openAccount_inv {t : Transaction} {r : Root}
    (h : openAccount t = .ok r) : AccountInv r.aggregate := by
  obtain ⟨amount, ham, hneg, hr⟩ := openAccount_ok_inversion h
  subst hr
  refine ⟨le_refl 0, fun p hp => ?_⟩
  simp only [List.mem_singleton] at hp
  subst hp
  exact ⟨rfl, amount, ham, not_lt.mp hneg⟩

theorem reachable_inv {r : Root} (h : Reachable r) : AccountInv r.aggregate := by
  induction h with
  | opened t r hopen => exact openAccount_inv hopen
  | step r r' t _ hstep ih =>
    unfold execCmd at hstep
    cases htt : t.transaction_type <;> rw [htt] at hstep
    · exact deposit_preserves_inv ih hstep
    · exact withdrawal_preserves_inv ih hstep
    · exact dispute_preserves_inv ih hstep
    · exact resolve_preserves_inv ih hstep
    · exact chargeback_preserves_inv ih hstep

theorem deposit_ok_balance {r r' : Root} {t : Transaction}
    (h : r.deposit t = (r', .ok)) :
    ∃ x, t.amount = some x ∧ 0 ≤ x ∧
      r'.aggregate.balance.available = r.aggregate.balance.available + x ∧
      r'.aggregate.balance.held = r.aggregate.balance.held := by
  obtain ⟨x, _, ham, hneg, _, hrec⟩ := deposit_ok_inversion h
  obtain ⟨happ, _⟩ := record_that_ok_inversion hrec
  rw [apply_deposit_eq] at happ
  injection happ with h1
  exact ⟨x, ham, not_lt.mp hneg, by rw [← h1], by rw [← h1]⟩

theorem withdrawal_ok_balance {r r' : Root} {t : Transaction}
    (h : r.withdrawal t = (r', .ok)) :
    ∃ x, t.amount = some x ∧ 0 ≤ x ∧ x ≤ r.aggregate.balance.available ∧
      r'.aggregate.balance.available = r.aggregate.balance.available - x ∧
      r'.aggregate.balance.held = r.aggregate.balance.held := by
  obtain ⟨x, _, ham, hneg, hfunds, _, hrec⟩ := withdrawal_ok_inversion h
  obtain ⟨happ, _⟩ := record_that_ok_inversion hrec
  rw [apply_withdrawal_eq] at happ
  injection happ with h1
  exact ⟨x, ham, not_lt.mp hneg, not_lt.mp hfunds, by rw [← h1], by rw [← h1]⟩

theorem dispute_ok_balance {r r' : Root} {t : Transaction}
    (hInv : AccountInv r.aggregate) (h : r.dispute t = (r', .ok)) :
    ∃ dtx x, alookup r.aggregate.pending_transactions t.tx_id = some dtx ∧
      dtx.amount = some x ∧ 0 ≤ x ∧
      r'.aggregate.balance.held = r.aggregate.balance.held + x ∧
      ((dtx.transaction_type = TransactionType.deposit ∧
        r'.aggregate.balance.available = r.aggregate.balance.available - x) ∨
       (dtx.transaction_type = TransactionType.withdrawal ∧
        r'.aggregate.balance.available =
          if x ≤ r.aggregate.balance.available then
            r.aggregate.balance.available - x
          else r.aggregate.balance.available)) := by
  obtain ⟨dtx, x, _, hfound, hcan, ham, hrec⟩ := dispute_ok_inversion h
  obtain ⟨happ, _⟩ := record_that_ok_inversion hrec
  obtain ⟨hkey, x', hx', hx0⟩ := hInv.2 (t.tx_id, dtx) (alookup_mem hfound)
  have hx : x = x' := by
    rw [ham] at hx'
    exact (Option.some.injEq ..).mp hx'
  subst hx
  have hl : alookup r.aggregate.pending_transactions dtx.tx_id = some dtx := by
    rw [hkey]
    exact hfound
  rw [apply_dispute_eq _ _ _ _ hl] at happ
  cases htt : dtx.transaction_type <;> rw [htt] at happ
  case deposit =>
    injection happ with h1
    exact ⟨dtx, x, hfound, ham, hx0, by rw [← h1], .inl ⟨htt, by rw [← h1]⟩⟩
  case withdrawal =>
    injection happ with h1
    exact ⟨dtx, x, hfound, ham, hx0, by rw [← h1], .inr ⟨htt, by rw [← h1]⟩⟩
  all_goals exact absurd happ (by simp)

theorem resolve_ok_balance {r r' : Root} {t : Transaction}
    (hInv : AccountInv r.aggregate) (h : r.resolve t = (r', .ok)) :
    ∃ x, 0 ≤ x ∧ x ≤ r.aggregate.balance.held ∧
      r'.aggregate.balance.available = r.aggregate.balance.available + x ∧
      r'.aggregate.balance.held = r.aggregate.balance.held - x := by
  obtain ⟨dtx, x, _, hfound, hcan, ham, hrec⟩ := resolve_ok_inversion h
  obtain ⟨happ, _⟩ := record_that_ok_inversion hrec
  obtain ⟨hkey, x', hx', hx0⟩ := hInv.2 (t.tx_id, dtx) (alookup_mem hfound)
  have hx : x = x' := by
    rw [ham] at hx'
    exact (Option.some.injEq ..).mp hx'
  subst hx
  have hl : alookup r.aggregate.pending_transactions dtx.tx_id = some dtx := by
    rw [hkey]
    exact hfound
  rw [apply_resolve_eq _ _ _ _ hl] at happ
  cases htt : dtx.transaction_type <;> rw [htt] at happ
  case deposit =>
    split at happ
    · split at happ
      · rename_i hle
        injection happ with h1
        exact ⟨x, hx0, hle, by rw [← h1], by rw [← h1]⟩
      · exact absurd happ (by simp)
    · rename_i heq
      exact absurd heq (by simp)
    · rename_i hno hnw
      exact absurd rfl hno
  case withdrawal =>
    split at happ
    · rename_i heq
      exact absurd heq (by simp)
    · split at happ
      · rename_i hle
        injection happ with h1
        exact ⟨x, hx0, hle, by rw [← h1], by rw [← h1]⟩
      · exact absurd happ (by simp)
    · rename_i hnd hnw
      exact absurd rfl hnw
  all_goals exact absurd happ (by simp)

theorem chargeback_ok_balance {r r' : Root} {t : Transaction}
    (hInv : AccountInv r.aggregate) (h : r.chargeback t = (r', .ok)) :
    ∃ x, 0 ≤ x ∧ x ≤ r.aggregate.balance.held ∧
      r'.aggregate.balance.available = r.aggregate.balance.available ∧
      r'.aggregate.balance.held = r.aggregate.balance.held - x := by
  obtain ⟨dtx, x, _, hfound, hcan, ham, hrec⟩ := chargeback_ok_inversion h
  obtain ⟨happ, _⟩ := record_that_ok_inversion hrec
  obtain ⟨hkey, x', hx', hx0⟩ := hInv.2 (t.tx_id, dtx) (alookup_mem hfound)
  have hx : x = x' := by
    rw [ham] at hx'
    exact (Option.some.injEq ..).mp hx'
  subst hx
  have hl : alookup r.aggregate.pending_transactions dtx.tx_id = some dtx := by
    rw [hkey]
    exact hfound
  rw [apply_chargeback_eq _ _ _ _ hl] at happ
  cases htt : dtx.transaction_type <;> rw [htt] at happ
  case deposit =>
    split at happ
    · split at happ
      · rename_i hle
        injection happ with h1
        exact ⟨x, hx0, hle, by rw [← h1], by rw [← h1]⟩
      · exact absurd happ (by simp)
    · rename_i heq
      exact absurd heq (by simp)
    · rename_i hno hnw
      exact absurd rfl hno
  case withdrawal =>
    split at happ
    · rename_i heq
      exact absurd heq (by simp)
    · split at happ
      · rename_i hle
        injection happ with h1
        exact ⟨x, hx0, hle, by rw [← h1], by rw [← h1]⟩
      · exact absurd happ (by simp)
    · rename_i hnd hnw
      exact absurd rfl hnw
  all_goals exact absurd happ (by simp)

/-- Turn a success of the second component into a full pair equation. -/
theorem pair_ok_of_snd {p : Root × COut} (h : p.2 = .ok) : p = (p.1, .ok) := by
  rw [← h]

/-- C1 (amended): for every reachable account state `held ≥ 0` holds,
and `available` goes negative only as a consequence of disputing a
**deposit**-type pending transaction whose amount exceeds the available
funds; no other command can take a non-negative `available` below zero
(in particular, disputing a withdrawal never does: it only reduces
`available` when the funds cover the disputed amount). -/
theorem held_nonneg_and_available_negative_only_by_deposit_dispute
    {r : Root} (hr : Reachable r) :
    0 ≤ r.aggregate.balance.held ∧
    ∀ t : Transaction, 0 ≤ r.aggregate.balance.available →
      (0 ≤ (r.deposit t).1.aggregate.balance.available ∧
       0 ≤ (r.withdrawal t).1.aggregate.balance.available ∧
       0 ≤ (r.resolve t).1.aggregate.balance.available ∧
       0 ≤ (r.chargeback t).1.aggregate.balance.available ∧
       ((r.dispute t).1.aggregate.balance.available < 0 →
         ∃ dtx x,
           alookup r.aggregate.pending_transactions t.tx_id = some dtx ∧
           dtx.transaction_type = TransactionType.deposit ∧
           dtx.amount = some x ∧ r.aggregate.balance.available < x)) := by
  refine ⟨(reachable_inv hr).1, fun t hav => ⟨?_, ?_, ?_, ?_, ?_⟩⟩
  · rcases deposit_shape r t with h1 | h1
    · rwa [h1]
    · obtain ⟨x, _, hx0, he, _⟩ := deposit_ok_balance (pair_ok_of_snd h1)
      rw [he]
      exact add_nonneg hav hx0
  · rcases withdrawal_shape r t with h1 | h1
    · rwa [h1]
    · obtain ⟨x, _, _, hle, he, _⟩ := withdrawal_ok_balance (pair_ok_of_snd h1)
      rw [he]
      exact sub_nonneg.mpr hle
  · rcases resolve_shape r t with h1 | h1
    · rwa [h1]
    · obtain ⟨x, hx0, _, he, _⟩ :=
        resolve_ok_balance (reachable_inv hr) (pair_ok_of_snd h1)
      rw [he]
      exact add_nonneg hav hx0
  · rcases chargeback_shape r t with h1 | h1
    · rwa [h1]
    · obtain ⟨x, _, _, he, _⟩ :=
        chargeback_ok_balance (reachable_inv hr) (pair_ok_of_snd h1)
      rw [he]
      exact hav
  · intro hneg
    rcases dispute_shape r t with h1 | h1
    · rw [h1] at hneg
      exact absurd hneg (not_lt.mpr hav)
    · obtain ⟨dtx, x, hfound, ham, hx0, _, hcase⟩ :=
        dispute_ok_balance (reachable_inv hr) (pair_ok_of_snd h1)
      rcases hcase with ⟨htype, he⟩ | ⟨htype, he⟩
      · rw [he] at hneg
        exact ⟨dtx, x, hfound, htype, ham, sub_neg.mp hneg⟩
      · rw [he] at hneg
        split_ifs at hneg with hc
        · exact absurd hneg (not_lt.mpr (sub_nonneg.mpr hc))
        · exact absurd hneg (not_lt.mpr hav)

theorem held_nonneg_and_available_negative_only_by_deposit_dispute_witness :
    0 ≤ cexRoot1.aggregate.balance.held ∧
    (0 ≤ (cexRoot1.deposit txWd2).1.aggregate.balance.available ∧
     0 ≤ (cexRoot1.withdrawal txWd2).1.aggregate.balance.available ∧
     0 ≤ (cexRoot1.resolve txWd2).1.aggregate.balance.available ∧
     0 ≤ (cexRoot1.chargeback txWd2).1.aggregate.balance.available ∧
     ((cexRoot1.dispute txWd2).1.aggregate.balance.available < 0 →
       ∃ dtx x,
         alookup cexRoot1.aggregate.pending_transactions txWd2.tx_id = some dtx ∧
         dtx.transaction_type = TransactionType.deposit ∧
         dtx.amount = some x ∧ cexRoot1.aggregate.balance.available < x)) :=
  have hr : Reachable cexRoot1 := Reachable.opened txDep1 cexRoot1 (by decide)
  ⟨(held_nonneg_and_available_negative_only_by_deposit_dispute hr).1,
   (held_nonneg_and_available_negative_only_by_deposit_dispute hr).2 txWd2
     (by decide)⟩

unseal Rat.add Rat.sub Rat.mul Rat.inv in
/-- C1 counterexample to the claim as stated: the reachable chain
open(deposit 10 as tx 1); withdrawal(10 as tx 2) leaves
`available = 0 ≥ 0`; disputing tx 1 — a **deposit**-type transaction —
then drives `available` to `-10`.  So `available` goes negative through
a deposit dispute, not a withdrawal dispute (which never lowers
`available` below zero). -/
theorem available_negative_from_deposit_dispute_counterexample :
    openAccount txDep1 = .ok cexRoot1 ∧
    cexRoot1.withdrawal txWd2 = (cexRoot2, .ok) ∧
    0 ≤ cexRoot2.aggregate.balance.available ∧
    cexRoot2.dispute txDis1 = (cexRoot3, .ok) ∧
    (alookup cexRoot2.aggregate.pending_transactions txDis1.tx_id).map
      (·.transaction_type) = some TransactionType.deposit ∧
    cexRoot3.aggregate.balance.available < 0 := by
  decide

theorem record_that_panics_iff {r : Root} {ev : TransactionEvent} :
    (r.record_that ev).2 = .panics ↔
    Account.apply (some r.aggregate) ev = .panics := by
  unfold Root.record_that
  cases happ : Account.apply (some r.aggregate) ev <;> simp

theorem apply_dispute_ne_panics {a : Account} {txId : Nat} {x : Rat}
    {tx0 : Transaction}
    (h : alookup a.pending_transactions txId = some tx0) :
    Account.apply (some a) (.disputeWasRecorded txId x) ≠ .panics := by
  rw [apply_dispute_eq _ _ _ _ h]
  cases tx0.transaction_type <;> simp

theorem apply_resolve_ne_panics {a : Account} {txId : Nat} {x : Rat}
    {tx0 : Transaction}
    (h : alookup a.pending_transactions txId = some tx0) :
    Account.apply (some a) (.resolveWasRecorded txId x) ≠ .panics := by
  rw [apply_resolve_eq _ _ _ _ h]
  cases tx0.transaction_type <;> (try split) <;> (try split_ifs) <;> simp

theorem apply_chargeback_ne_panics {a : Account} {txId : Nat} {x : Rat}
    {tx0 : Transaction}
    (h : alookup a.pending_transactions txId = some tx0) :
    Account.apply (some a) (.chargebackWasRecorded txId x) ≠ .panics := by
  rw [apply_chargeback_eq _ _ _ _ h]
  cases tx0.transaction_type <;> (try split) <;> (try split_ifs) <;> simp

/-- C9: on every reachable account, dispute, resolve and chargeback
commands never reach the `Entry::Vacant` / `unreachable!()` branch of
`Account::apply`: the command layer only records such an event after
finding the referenced transaction in `pending_transactions`, and every
pending entry is keyed by its own tx id, so the event's tx id is always
found again when the event is applied. -/
theorem dispute_resolve_chargeback_never_panic {r : Root}
    (hr : Reachable r) (t : Transaction) :
    (r.dispute t).2 ≠ .panics ∧
    (r.resolve t).2 ≠ .panics ∧
    (r.chargeback t).2 ≠ .panics := by
  have hInv := reachable_inv hr
  refine ⟨?_, ?_, ?_⟩
  · unfold Root.dispute
    split
    · simp
    · split
      · rename_i dtx hfound
        split
        · split
          · simp
          · intro hpan
            have hkey := (hInv.2 (t.tx_id, dtx) (alookup_mem hfound)).1
            have hl : alookup r.aggregate.pending_transactions dtx.tx_id =
                some dtx := by
              rw [hkey]
              exact hfound
            exact apply_dispute_ne_panics hl (record_that_panics_iff.mp hpan)
        · simp
      · simp
  · unfold Root.resolve
    split
    · simp
    · split
      · rename_i dtx hfound
        split
        · split
          · simp
          · intro hpan
            have hkey := (hInv.2 (t.tx_id, dtx) (alookup_mem hfound)).1
            have hl : alookup r.aggregate.pending_transactions dtx.tx_id =
                some dtx := by
              rw [hkey]
              exact hfound
            exact apply_resolve_ne_panics hl (record_that_panics_iff.mp hpan)
        · simp
      · simp
  · unfold Root.chargeback
    split
    · simp
    · split
      · rename_i dtx hfound
        split
        · split
          · simp
          · intro hpan
            have hkey := (hInv.2 (t.tx_id, dtx) (alookup_mem hfound)).1
            have hl : alookup r.aggregate.pending_transactions dtx.tx_id =
                some dtx := by
              rw [hkey]
              exact hfound
            exact apply_chargeback_ne_panics hl (record_that_panics_iff.mp hpan)
        · simp
      · simp

theorem dispute_resolve_chargeback_never_panic_witness :
    (cexRoot1.dispute txDis1).2 ≠ .panics ∧
    (cexRoot1.resolve txDis1).2 ≠ .panics ∧
    (cexRoot1.chargeback txDis1).2 ≠ .panics :=
  dispute_resolve_chargeback_never_panic
    (Reachable.opened txDep1 cexRoot1 (by decide)) txDis1

theorem dFloor_nonneg {q : Rat} (h : 0 ≤ q) : 0 ≤ dFloor q :=
  Int.fdiv_nonneg (Rat.num_nonneg.mpr h) (Int.ofNat_nonneg _)

theorem roundHalfEven_nonneg {q : Rat} (h : 0 ≤ q) : 0 ≤ roundHalfEven q := by
  have hf := dFloor_nonneg h
  simp only [roundHalfEven]
  split_ifs <;> omega

theorem roundDp4_nonneg {q : Rat} (h : 0 ≤ q) : 0 ≤ roundDp4 q := by
  unfold roundDp4
  have h1 : 0 ≤ roundHalfEven (q * 10000) :=
    roundHalfEven_nonneg (by positivity)
  have h2 : (0 : Rat) ≤ (roundHalfEven (q * 10000) : Rat) := by
    exact_mod_cast h1
  positivity

/-- C2 (amended): for every reachable account state the snapshot's
`held` field is non-negative and `total` is `available + held` rounded
to four decimal places (and `available` is the rounded raw available);
the snapshot's `available` itself **can** be presented negative. -/
theorem snapshot_held_nonneg_and_total_eq_sum {r : Root} (hr : Reachable r) :
    0 ≤ r.snapshot.held ∧
    r.snapshot.total =
      roundDp4 (r.aggregate.balance.available + r.aggregate.balance.held) ∧
    r.snapshot.available = roundDp4 r.aggregate.balance.available :=
  ⟨roundDp4_nonneg (reachable_inv hr).1, rfl, rfl⟩

theorem snapshot_held_nonneg_and_total_eq_sum_witness :
    0 ≤ cexRoot1.snapshot.held ∧
    cexRoot1.snapshot.total =
      roundDp4 (cexRoot1.aggregate.balance.available +
        cexRoot1.aggregate.balance.held) ∧
    cexRoot1.snapshot.available = roundDp4 cexRoot1.aggregate.balance.available :=
  snapshot_held_nonneg_and_total_eq_sum
    (Reachable.opened txDep1 cexRoot1 (by decide))

unseal Rat.add Rat.sub Rat.mul Rat.inv in
/-- C2 counterexample to the claim as stated: after the reachable chain
open(deposit 10); withdrawal(10); dispute(tx 1) the snapshot presents
`available = -10 < 0`. -/
theorem snapshot_negative_available_counterexample :
    openAccount txDep1 = .ok cexRoot1 ∧
    cexRoot1.withdrawal txWd2 = (cexRoot2, .ok) ∧
    cexRoot2.dispute txDis1 = (cexRoot3, .ok) ∧
    cexRoot3.snapshot.available < 0 := by
  decide

/-- C3: on a locked account every command method rejects with
`LockedAccount{id, tx}` (the incoming transaction's client and tx ids)
and leaves the aggregate state, version and uncommitted-event buffer
unchanged; hence a locked account is never mutated by any subsequent
command. -/
theorem locked_account_rejects_all_commands (r : Root) (t : Transaction)
    (h : r.aggregate.locked = true) :
    r.deposit t = (r, .err (.lockedAccount t.client_id t.tx_id)) ∧
    r.withdrawal t = (r, .err (.lockedAccount t.client_id t.tx_id)) ∧
    r.dispute t = (r, .err (.lockedAccount t.client_id t.tx_id)) ∧
    r.resolve t = (r, .err (.lockedAccount t.client_id t.tx_id)) ∧
    r.chargeback t = (r, .err (.lockedAccount t.client_id t.tx_id)) := by
  refine ⟨?_, ?_, ?_, ?_, ?_⟩ <;>
    simp [Root.deposit, Root.withdrawal, Root.dispute, Root.resolve,
          Root.chargeback, h]

theorem locked_account_rejects_all_commands_witness :
    lockedRoot.aggregate.locked = true ∧
    lockedRoot.deposit txDep1 =
      (lockedRoot, .err (.lockedAccount txDep1.client_id txDep1.tx_id)) :=
  ⟨by decide,
   (locked_account_rejects_all_commands lockedRoot txDep1 (by decide)).1⟩

/-- C10: whenever a command method returns an error, the root is
completely unchanged — aggregate state, version and uncommitted-event
buffer; `Account::apply` mutates only a clone that the failing path
discards. -/
theorem command_error_leaves_root_unchanged (r : Root) (t : Transaction) :
    (∀ e, (r.deposit t).2 = .err e → (r.deposit t).1 = r) ∧
    (∀ e, (r.withdrawal t).2 = .err e → (r.withdrawal t).1 = r) ∧
    (∀ e, (r.dispute t).2 = .err e → (r.dispute t).1 = r) ∧
    (∀ e, (r.resolve t).2 = .err e → (r.resolve t).1 = r) ∧
    (∀ e, (r.chargeback t).2 = .err e → (r.chargeback t).1 = r) := by
  refine ⟨fun e h => ?_, fun e h => ?_, fun e h => ?_, fun e h => ?_,
          fun e h => ?_⟩
  · rcases deposit_shape r t with h1 | h1
    · exact h1
    · rw [h1] at h; exact absurd h (by simp)
  · rcases withdrawal_shape r t with h1 | h1
    · exact h1
    · rw [h1] at h; exact absurd h (by simp)
  · rcases dispute_shape r t with h1 | h1
    · exact h1
    · rw [h1] at h; exact absurd h (by simp)
  · rcases resolve_shape r t with h1 | h1
    · exact h1
    · rw [h1] at h; exact absurd h (by simp)
  · rcases chargeback_shape r t with h1 | h1
    · exact h1
    · rw [h1] at h; exact absurd h (by simp)

theorem command_error_leaves_root_unchanged_witness :
    (cexRoot1.deposit txNoAmount).2 = .err .noMoneyDeposited ∧
    (cexRoot1.deposit txNoAmount).1 = cexRoot1 :=
  ⟨by decide,
   (command_error_leaves_root_unchanged cexRoot1 txNoAmount).1
     .noMoneyDeposited (by decide)⟩

theorem alookup_ainsert_self {ι β : Type} [DecidableEq ι] (l : List (ι × β))
    (k : ι) (v : β) : alookup (ainsert l k v) k = some v := by
  induction l with
  | nil => simp [ainsert, alookup]
  | cons p rest ih =>
    obtain ⟨k', v'⟩ := p
    by_cases hk : k' = k
    · subst hk
      simp [ainsert, alookup]
    · simp [ainsert, alookup, hk, ih]

theorem alookup_ainsert_ne {ι β : Type} [DecidableEq ι] (l : List (ι × β))
    (k j : ι) (v : β) (hj : j ≠ k) :
    alookup (ainsert l k v) j = alookup l j := by
  induction l with
  | nil => simp [ainsert, alookup, Ne.symm hj]
  | cons p rest ih =>
    obtain ⟨k', v'⟩ := p
    by_cases hk : k' = k
    · subst hk
      simp [ainsert, alookup, Ne.symm hj]
    · simp [ainsert, alookup, hk, ih]

theorem alookup_append_left {ι β : Type} [DecidableEq ι]
    {l1 l2 : List (ι × β)} {j : ι} {w : β} (h : alookup l1 j = some w) :
    alookup (l1 ++ l2) j = some w := by
  induction l1 with
  | nil => simp [alookup] at h
  | cons p rest ih =>
    obtain ⟨k', v'⟩ := p
    by_cases hk : k' = j
    · subst hk
      simp [alookup] at h ⊢
      exact h
    · simp [alookup, hk] at h ⊢
      exact ih h

theorem alookup_append_right {ι β : Type} [DecidableEq ι]
    {l1 : List (ι × β)} (l2 : List (ι × β)) {j : ι}
    (h : alookup l1 j = none) :
    alookup (l1 ++ l2) j = alookup l2 j := by
  induction l1 with
  | nil => simp
  | cons p rest ih =>
    obtain ⟨k', v'⟩ := p
    by_cases hk : k' = j
    · subst hk
      simp [alookup] at h
    · simp [alookup, hk] at h ⊢
      exact ih h

theorem persistFrom_map_version {ι α : Type} (id : ι) (v : Nat) (l : List α) :
    (persistFrom id v l).map Persisted.version = List.range' (v + 1) l.length := by
  induction l generalizing v with
  | nil => simp [persistFrom]
  | cons e rest ih => simp [persistFrom, List.range'_succ, ih]

theorem persistFrom_map_event {ι α : Type} (id : ι) (v : Nat) (l : List α) :
    (persistFrom id v l).map Persisted.event = l := by
  induction l generalizing v with
  | nil => simp [persistFrom]
  | cons e rest ih => simp [persistFrom, ih]

theorem persistFrom_stream_id {ι α : Type} (id : ι) (v : Nat) (l : List α) :
    ∀ p ∈ persistFrom id v l, p.stream_id = id := by
  induction l generalizing v with
  | nil => simp [persistFrom]
  | cons e rest ih =>
    intro p hp
    simp only [persistFrom, List.mem_cons] at hp
    rcases hp with hp | hp
    · rw [hp]
    · exact ih (v + 1) p hp

theorem persistFrom_last_version {ι α : Type} (id : ι) (v : Nat)
    (l : List α) (hne : l ≠ []) :
    (persistFrom id v l).getLast?.map Persisted.version = some (v + l.length) := by
  induction l generalizing v with
  | nil => exact absurd rfl hne
  | cons e rest ih =>
    cases rest with
    | nil => simp [persistFrom]
    | cons e2 rest2 =>
      rw [show persistFrom id v (e :: e2 :: rest2) =
            { stream_id := id, version := v + 1, event := e } ::
              persistFrom id (v + 1) (e2 :: rest2) from rfl]
      rw [show persistFrom id (v + 1) (e2 :: rest2) =
            { stream_id := id, version := v + 2, event := e2 } ::
              persistFrom id (v + 2) rest2 from rfl]
      rw [List.getLast?_cons_cons]
      rw [show ({ stream_id := id, version := v + 2, event := e2 } :
            Persisted ι α) :: persistFrom id (v + 2) rest2 =
            persistFrom id (v + 1) (e2 :: rest2) from rfl]
      rw [ih (v + 1) (by simp)]
      simp
      omega

theorem append_conflict_eq {ι α : Type} [DecidableEq ι] (s : InMemory ι α)
    (id : ι) (v : Nat) (events : List α) (h : s.lastVersion id ≠ v) :
    s.append id (.mustBe v) events =
      (.error (.conflict { expected := v, actual := s.lastVersion id }), s) := by
  unfold InMemory.append
  simp [h]

theorem append_ok_eq {ι α : Type} [DecidableEq ι] (s : InMemory ι α)
    (id : ι) (v : Nat) (events : List α) (h : s.lastVersion id = v) :
    s.append id (.mustBe v) events =
      (.ok (((persistFrom id v events).getLast?.map Persisted.version).getD 0),
       { event_streams :=
           match alookup s.event_streams id with
           | some old => ainsert s.event_streams id (old ++ persistFrom id v events)
           | none => s.event_streams ++ [(id, persistFrom id v events)] }) := by
  unfold InMemory.append
  simp [h]

theorem streamOf_append_self {ι α : Type} [DecidableEq ι] (s : InMemory ι α)
    (id : ι) (v : Nat) (events : List α) (h : s.lastVersion id = v) :
    (s.append id (.mustBe v) events).2.streamOf id =
      s.streamOf id ++ persistFrom id v events := by
  rw [append_ok_eq s id v events h]
  unfold InMemory.streamOf
  cases hl : alookup s.event_streams id with
  | some old => simp [hl, alookup_ainsert_self]
  | none =>
    simp only [hl]
    rw [alookup_append_right _ hl]
    simp [alookup]

theorem streamOf_append_other {ι α : Type} [DecidableEq ι] (s : InMemory ι α)
    (id : ι) (v : Nat) (events : List α) (h : s.lastVersion id = v)
    (j : ι) (hj : j ≠ id) :
    (s.append id (.mustBe v) events).2.streamOf j = s.streamOf j := by
  rw [append_ok_eq s id v events h]
  unfold InMemory.streamOf
  cases hl : alookup s.event_streams id with
  | some old => simp [alookup_ainsert_ne _ _ _ _ hj]
  | none =>
    simp only []
    cases hlj : alookup s.event_streams j with
    | some w => rw [alookup_append_left hlj]
    | none =>
      rw [alookup_append_right _ hlj]
      simp [alookup, Ne.symm hj]

/-- C4: for a non-empty event list, `append(id, MustBe(v), events)`
succeeds iff the stream's current last version equals `v`; on mismatch
it fails with `Conflict{expected: v, actual: last}` leaving the store
untouched; on success it assigns versions `last+1 … last+len` contiguously
in order (to the given events, all tagged with the stream id), leaves
every other stream unchanged, and returns the last assigned version. -/
theorem append_mustBe_spec {ι α : Type} [DecidableEq ι] (s : InMemory ι α)
    (id : ι) (v : Nat) (events : List α) (hne : events ≠ []) :
    ((∃ n, (s.append id (.mustBe v) events).1 = .ok n) ↔
      s.lastVersion id = v) ∧
    (s.lastVersion id ≠ v →
      s.append id (.mustBe v) events =
        (.error (.conflict { expected := v, actual := s.lastVersion id }), s)) ∧
    (s.lastVersion id = v →
      (s.append id (.mustBe v) events).1 = .ok (v + events.length) ∧
      ∃ suffix,
        (s.append id (.mustBe v) events).2.streamOf id =
          s.streamOf id ++ suffix ∧
        suffix.map Persisted.version = List.range' (v + 1) events.length ∧
        suffix.map Persisted.event = events ∧
        (∀ p ∈ suffix, p.stream_id = id) ∧
        (∀ j, j ≠ id →
          (s.append id (.mustBe v) events).2.streamOf j = s.streamOf j)) := by
  have hok : s.lastVersion id = v →
      (s.append id (.mustBe v) events).1 = .ok (v + events.length) := by
    intro h
    rw [append_ok_eq s id v events h,
        persistFrom_last_version id v events hne]
    rfl
  refine ⟨⟨fun ⟨n, hn⟩ => ?_, fun h => ⟨v + events.length, hok h⟩⟩,
          fun h => append_conflict_eq s id v events h, fun h => ⟨hok h, ?_⟩⟩
  · by_contra h
    rw [append_conflict_eq s id v events h] at hn
    exact absurd hn (by simp)
  · exact ⟨persistFrom id v events,
      streamOf_append_self s id v events h,
      persistFrom_map_version id v events,
      persistFrom_map_event id v events,
      persistFrom_stream_id id v events,
      fun j hj => streamOf_append_other s id v events h j hj⟩

theorem append_mustBe_spec_witness :
    ((∃ n, (natStore1.append 1 (.mustBe 1) [9]).1 = .ok n) ↔
      natStore1.lastVersion 1 = 1) ∧
    (natStore1.lastVersion 1 ≠ 1 →
      natStore1.append 1 (.mustBe 1) [9] =
        (.error (.conflict { expected := 1, actual := natStore1.lastVersion 1 }),
         natStore1)) ∧
    (natStore1.lastVersion 1 = 1 →
      (natStore1.append 1 (.mustBe 1) [9]).1 = .ok (1 + [9].length) ∧
      ∃ suffix,
        (natStore1.append 1 (.mustBe 1) [9]).2.streamOf 1 =
          natStore1.streamOf 1 ++ suffix ∧
        suffix.map Persisted.version = List.range' (1 + 1) [9].length ∧
        suffix.map Persisted.event = [9] ∧
        (∀ p ∈ suffix, p.stream_id = 1) ∧
        (∀ j, j ≠ 1 →
          (natStore1.append 1 (.mustBe 1) [9]).2.streamOf j =
            natStore1.streamOf j)) :=
  append_mustBe_spec natStore1 1 1 [9] (by decide)

/-- C5 (amended): `append` with an empty event list and a passing
version check leaves every stream's contents unchanged but returns
`Ok(0)` — the `unwrap_or_default()` of an empty list — regardless of
the stream's current last version. -/
theorem append_empty_returns_zero {ι α : Type} [DecidableEq ι]
    (s : InMemory ι α) (id : ι) (check : Check)
    (hpass : check = .any ∨ check = .mustBe (s.lastVersion id)) :
    (s.append id check []).1 = .ok 0 ∧
    ∀ j, (s.append id check []).2.streamOf j = s.streamOf j := by
  rcases hpass with h | h <;> subst h
  · constructor
    · unfold InMemory.append
      rfl
    · intro j
      show ((s.append id .any []).2.streamOf j) = _
      unfold InMemory.append InMemory.streamOf
      simp only [persistFrom]
      cases hl : alookup s.event_streams id with
      | some old =>
        simp only [hl, List.append_nil]
        by_cases hj : j = id
        · subst hj
          rw [alookup_ainsert_self]
          simp [hl]
        · rw [alookup_ainsert_ne _ _ _ _ hj]
      | none =>
        simp only [hl]
        by_cases hj : j = id
        · subst hj
          rw [alookup_append_right _ hl]
          simp [alookup, hl]
        · cases hlj : alookup s.event_streams j with
          | some w => rw [alookup_append_left hlj]
          | none =>
            rw [alookup_append_right _ hlj]
            simp [alookup, Ne.symm hj]
  · constructor
    · unfold InMemory.append
      simp [persistFrom]
    · intro j
      unfold InMemory.append InMemory.streamOf
      simp only [persistFrom]
      have hc : ¬ s.lastVersion id ≠ s.lastVersion id := by simp
      simp only [hc, if_false]
      cases hl : alookup s.event_streams id with
      | some old =>
        simp only [hl, List.append_nil]
        by_cases hj : j = id
        · subst hj
          rw [alookup_ainsert_self]
          simp [hl]
        · rw [alookup_ainsert_ne _ _ _ _ hj]
      | none =>
        simp only [hl]
        by_cases hj : j = id
        · subst hj
          rw [alookup_append_right _ hl]
          simp [alookup, hl]
        · cases hlj : alookup s.event_streams j with
          | some w => rw [alookup_append_left hlj]
          | none =>
            rw [alookup_append_right _ hlj]
            simp [alookup, Ne.symm hj]

theorem append_empty_returns_zero_witness :
    (natStore1.append 1 (.mustBe 1) []).1 = .ok 0 ∧
    ∀ j, (natStore1.append 1 (.mustBe 1) []).2.streamOf j =
      natStore1.streamOf j :=
  append_empty_returns_zero natStore1 1 (.mustBe 1) (.inr (by decide))

/-- C5 counterexample to the claim as stated: on a stream whose current
last version is 1, appending an empty list under a passing
`MustBe(1)` check returns `Ok(0)`, not the current last version 1. -/
theorem append_empty_counterexample :
    natStore1.lastVersion 1 = 1 ∧
    (natStore1.append 1 (.mustBe 1) ([] : List Nat)).1 = .ok 0 ∧
    (0 : Nat) ≠ 1 := by
  decide

theorem rehydrateLoop_append (ctx : Option Root)
    (l1 l2 : List TransactionEvent) :
    rehydrateLoop ctx (l1 ++ l2) =
      match rehydrateLoop ctx l1 with
      | .ok ctx' => rehydrateLoop ctx' l2
      | .err e => .err e
      | .panics => .panics := by
  induction l1 generalizing ctx with
  | nil => simp [rehydrateLoop]
  | cons e rest ih =>
    simp only [List.cons_append, rehydrateLoop]
    cases hstep : (match ctx with
                   | none => Root.rehydrate_from e
                   | some r => r.apply_rehydrated_event e) with
    | ok r => exact ih (some r)
    | err e => rfl
    | panics => rfl

theorem openAccount_rehydrates {t : Transaction} {r : Root}
    (h : openAccount t = .ok r) :
    Root.rehydrate r.recorded_events =
      .ok (some { aggregate := r.aggregate, version := r.version
                  recorded_events := [] }) := by
  obtain ⟨x, ham, hneg, hr⟩ := openAccount_ok_inversion h
  subst hr
  simp [Root.rehydrate, rehydrateLoop, Root.rehydrate_from,
        apply_opened_eq, ham, hneg]

theorem record_that_rehydrates {r r' : Root} {ev : TransactionEvent}
    (hrec : r.record_that ev = (r', .ok))
    (ih : Root.rehydrate r.recorded_events =
      .ok (some { aggregate := r.aggregate, version := r.version
                  recorded_events := [] })) :
    Root.rehydrate r'.recorded_events =
      .ok (some { aggregate := r'.aggregate, version := r'.version
                  recorded_events := [] }) := by
  obtain ⟨happ, hshape⟩ := record_that_ok_inversion hrec
  have hev : r'.recorded_events = r.recorded_events ++ [ev] := by
    rw [hshape]
  have hv : r'.version = r.version + 1 := by
    rw [hshape]
  rw [hev, hv]
  unfold Root.rehydrate at ih ⊢
  rw [rehydrateLoop_append, ih]
  simp [rehydrateLoop, Root.apply_rehydrated_event, happ]

theorem execCmd_ok_record {r r' : Root} {t : Transaction}
    (h : execCmd r t = (r', .ok)) :
    ∃ ev, r.record_that ev = (r', .ok) := by
  unfold execCmd at h
  cases htt : t.transaction_type <;> rw [htt] at h
  · obtain ⟨x, _, _, _, _, hrec⟩ := deposit_ok_inversion h
    exact ⟨_, hrec⟩
  · obtain ⟨x, _, _, _, _, _, hrec⟩ := withdrawal_ok_inversion h
    exact ⟨_, hrec⟩
  · obtain ⟨dtx, x, _, _, _, _, hrec⟩ := dispute_ok_inversion h
    exact ⟨_, hrec⟩
  · obtain ⟨dtx, x, _, _, _, _, hrec⟩ := resolve_ok_inversion h
    exact ⟨_, hrec⟩
  · obtain ⟨dtx, x, _, _, _, _, hrec⟩ := chargeback_ok_inversion h
    exact ⟨_, hrec⟩

theorem execAll_rehydrates {cs : List Transaction} : ∀ {r0 r : Root},
    Root.rehydrate r0.recorded_events =
      .ok (some { aggregate := r0.aggregate, version := r0.version
                  recorded_events := [] }) →
    execAll r0 cs = some r →
    Root.rehydrate r.recorded_events =
      .ok (some { aggregate := r.aggregate, version := r.version
                  recorded_events := [] }) := by
  induction cs with
  | nil =>
    intro r0 r h0 hexec
    simp only [execAll] at hexec
    injection hexec with h1
    subst h1
    exact h0
  | cons c rest ih =>
    intro r0 r h0 hexec
    unfold execAll at hexec
    split at hexec
    · rename_i r1 heq
      obtain ⟨ev, hrec⟩ := execCmd_ok_record heq
      exact ih (record_that_rehydrates hrec h0) hexec
    · exact absurd hexec (by simp)

/-- C8: rehydrating a root from the full event sequence recorded by a
successful command sequence (open followed by any commands executed via
`record_new`/`record_that`) yields the same aggregate state and version
as the live root (with an empty uncommitted buffer). -/
theorem rehydrate_equals_live {t : Transaction} {r0 r : Root}
    {cs : List Transaction}
    (hopen : openAccount t = .ok r0) (hexec : execAll r0 cs = some r) :
    Root.rehydrate r.recorded_events =
      .ok (some { aggregate := r.aggregate, version := r.version
                  recorded_events := [] }) :=
  execAll_rehydrates (openAccount_rehydrates hopen) hexec

unseal Rat.add Rat.sub Rat.mul Rat.inv in
theorem rehydrate_equals_live_witness :
    openAccount txDep1 = .ok cexRoot1 ∧
    execAll cexRoot1 [txWd2] = some cexRoot2 ∧
    Root.rehydrate cexRoot2.recorded_events =
      .ok (some { aggregate := cexRoot2.aggregate, version := cexRoot2.version
                  recorded_events := [] }) :=
  ⟨by decide, by decide,
   @rehydrate_equals_live txDep1 cexRoot1 cexRoot2 [txWd2] (by decide) (by decide)⟩

/-- C6 (code bug): the `Deposit` arm of `Service::handle` guards its
second arm with `matches!(GetError::NotFound, _err)` — a match against
the irrefutable binding `_err`, which is true for **every** error — so
a repository `get` failing with `Internal` (here: a corrupt stream whose
first event is a deposit) is treated like `NotFound`: the service opens
a brand-new account and tries to save it, producing a version-conflict
error instead of propagating the `Internal` error. -/
theorem deposit_internal_get_error_not_propagated :
    repoGet corruptStore 1 = .err (.internal .notOpenedYet) ∧
    handle corruptStore txDep1 =
      .err (.save (.conflict { expected := 0, actual := 1 })) := by
  decide

theorem apply_dispute_vacant {a : Account} {txId : Nat} {x : Rat}
    (hl : alookup a.pending_transactions txId = none) :
    Account.apply (some a) (.disputeWasRecorded txId x) = .panics := by
  simp only [Account.apply]
  rw [hl]

theorem apply_resolve_vacant {a : Account} {txId : Nat} {x : Rat}
    (hl : alookup a.pending_transactions txId = none) :
    Account.apply (some a) (.resolveWasRecorded txId x) = .panics := by
  simp only [Account.apply]
  rw [hl]

theorem apply_chargeback_vacant {a : Account} {txId : Nat} {x : Rat}
    (hl : alookup a.pending_transactions txId = none) :
    Account.apply (some a) (.chargebackWasRecorded txId x) = .panics := by
  simp only [Account.apply]
  rw [hl]

theorem apply_some_preserves_id {a0 a : Account} {e : TransactionEvent}
    (h : Account.apply (some a0) e = .ok a) : a.id = a0.id := by
  cases e with
  | wasOpened txId holder tr =>
    exact absurd h (by simp [Account.apply])
  | depositWasRecorded x tr =>
    rw [apply_deposit_eq] at h
    injection h with h1
    rw [← h1]
  | withdrawalWasRecorded x tr =>
    rw [apply_withdrawal_eq] at h
    injection h with h1
    rw [← h1]
  | disputeWasRecorded txId x =>
    cases hl : alookup a0.pending_transactions txId with
    | none =>
      rw [apply_dispute_vacant hl] at h
      exact absurd h (by simp)
    | some tx0 =>
      rw [apply_dispute_eq _ _ _ _ hl] at h
      split at h
      · injection h with h1
        rw [← h1]
      · injection h with h1
        rw [← h1]
      · exact absurd h (by simp)
  | resolveWasRecorded txId x =>
    cases hl : alookup a0.pending_transactions txId with
    | none =>
      rw [apply_resolve_vacant hl] at h
      exact absurd h (by simp)
    | some tx0 =>
      rw [apply_resolve_eq _ _ _ _ hl] at h
      split at h
      · split at h
        · injection h with h1
          rw [← h1]
        · exact absurd h (by simp)
      · split at h
        · injection h with h1
          rw [← h1]
        · exact absurd h (by simp)
      · exact absurd h (by simp)
  | chargebackWasRecorded txId x =>
    cases hl : alookup a0.pending_transactions txId with
    | none =>
      rw [apply_chargeback_vacant hl] at h
      exact absurd h (by simp)
    | some tx0 =>
      rw [apply_chargeback_eq _ _ _ _ hl] at h
      split at h
      · split at h
        · injection h with h1
          rw [← h1]
        · exact absurd h (by simp)
      · split at h
        · injection h with h1
          rw [← h1]
        · exact absurd h (by simp)
      · exact absurd h (by simp)

theorem apply_none_ok {e : TransactionEvent} {a : Account}
    (h : Account.apply none e = .ok a) :
    ∃ txId holder tr, e = .wasOpened txId holder tr ∧ a.id = holder := by
  cases e with
  | wasOpened txId holder tr =>
    rw [apply_opened_eq] at h
    refine ⟨txId, holder, tr, rfl, ?_⟩
    split at h
    · exact absurd h (by simp)
    · split at h
      · exact absurd h (by simp)
      · injection h with h1
        rw [← h1]
  | depositWasRecorded x tr => exact absurd h (by simp [Account.apply])
  | withdrawalWasRecorded x tr => exact absurd h (by simp [Account.apply])
  | disputeWasRecorded txId x => exact absurd h (by simp [Account.apply])
  | resolveWasRecorded txId x => exact absurd h (by simp [Account.apply])
  | chargebackWasRecorded txId x => exact absurd h (by simp [Account.apply])

theorem rehydrateLoop_some_inv {l : List TransactionEvent} : ∀ {r1 r2 : Root},
    rehydrateLoop (some r1) l = .ok (some r2) →
    r2.aggregate.id = r1.aggregate.id ∧
    r2.recorded_events = r1.recorded_events := by
  induction l with
  | nil =>
    intro r1 r2 h
    simp only [rehydrateLoop] at h
    injection h with h1
    injection h1 with h2
    subst h2
    exact ⟨rfl, rfl⟩
  | cons e rest ih =>
    intro r1 r2 h
    simp only [rehydrateLoop] at h
    split at h
    · rename_i r' heq
      unfold Root.apply_rehydrated_event at heq
      split at heq
      · rename_i a happ
        injection heq with h2
        obtain ⟨hid, hev⟩ := ih h
        constructor
        · rw [hid, ← h2]
          exact apply_some_preserves_id happ
        · rw [hev, ← h2]
      · exact absurd heq (by simp)
      · exact absurd heq (by simp)
    · exact absurd h (by simp)
    · exact absurd h (by simp)

theorem rehydrate_ok_some {l : List TransactionEvent} {r : Root}
    (h : Root.rehydrate l = .ok (some r)) :
    ∃ txId holder tr rest, l = .wasOpened txId holder tr :: rest ∧
      r.aggregate.id = holder ∧ r.recorded_events = [] := by
  unfold Root.rehydrate at h
  cases l with
  | nil => simp [rehydrateLoop] at h
  | cons e rest =>
    simp only [rehydrateLoop] at h
    split at h
    · rename_i r1 heq
      unfold Root.rehydrate_from at heq
      split at heq
      · rename_i a happ
        obtain ⟨txId, holder, tr, hev, hid⟩ := apply_none_ok happ
        obtain ⟨hid2, hev2⟩ := rehydrateLoop_some_inv h
        injection heq with h2
        refine ⟨txId, holder, tr, rest, by rw [hev], ?_, ?_⟩
        · rw [hid2, ← h2]
          exact hid
        · rw [hev2, ← h2]
      · exact absurd heq (by simp)
      · exact absurd heq (by simp)
    · exact absurd h (by simp)
    · exact absurd h (by simp)

theorem repoGet_ok_iff {s : InMemory Nat TransactionEvent} {k : Nat} {r : Root} :
    repoGet s k = .ok r ↔
    Root.rehydrate (s.streamAll k) = .ok (some r) := by
  unfold repoGet
  cases hr : Root.rehydrate (s.streamAll k) with
  | ok o => cases o <;> simp
  | err e => simp
  | panics => simp

theorem repoGet_ok_events {s : InMemory Nat TransactionEvent} {k : Nat}
    {r : Root} (h : repoGet s k = .ok r) : r.recorded_events = [] := by
  obtain ⟨_, _, _, _, _, _, hev⟩ := rehydrate_ok_some (repoGet_ok_iff.mp h)
  exact hev

theorem repoSave_ok_streamAll {s s' : InMemory Nat TransactionEvent}
    {rt : Root} (h : repoSave s rt = .ok s') :
    s'.streamAll rt.aggregate.id =
      s.streamAll rt.aggregate.id ++ rt.recorded_events ∧
    ∀ k, k ≠ rt.aggregate.id → s'.streamAll k = s.streamAll k := by
  unfold repoSave at h
  split at h
  · rename_i hemp
    injection h with h1
    subst h1
    exact ⟨by rw [hemp, List.append_nil], fun k _ => rfl⟩
  · rename_i hemp
    split at h
    · rename_i n s2 heq
      injection h with h1
      subst h1
      have hv : s.lastVersion rt.aggregate.id =
          rt.version - rt.recorded_events.length := by
        by_contra hv
        rw [append_conflict_eq _ _ _ _ hv] at heq
        exact absurd (congrArg Prod.fst heq) (by simp)
      have h2 : (s.append rt.aggregate.id
          (.mustBe (rt.version - rt.recorded_events.length))
          rt.recorded_events).2 = s2 := by
        rw [heq]
      constructor
      · unfold InMemory.streamAll
        rw [← h2, streamOf_append_self _ _ _ _ hv]
        rw [List.map_append, persistFrom_map_event]
      · intro k hk
        unfold InMemory.streamAll
        rw [← h2, streamOf_append_other _ _ _ _ hv k hk]
    · exact absurd h (by simp)
    · exact absurd h (by simp)

theorem repoSave_preserves_wf {s s' : InMemory Nat TransactionEvent}
    {rt : Root} (hwf : StoreWF s) (hsave : repoSave s rt = .ok s')
    (hhead : ∀ txId holder tr rest,
      rt.recorded_events = .wasOpened txId holder tr :: rest →
      holder = rt.aggregate.id) :
    StoreWF s' := by
  obtain ⟨hself, hother⟩ := repoSave_ok_streamAll hsave
  intro k r2 hget2
  by_cases hk : k = rt.aggregate.id
  · subst hk
    have h2 := repoGet_ok_iff.mp hget2
    rw [hself] at h2
    unfold Root.rehydrate at h2
    rw [rehydrateLoop_append] at h2
    split at h2
    · rename_i ctx hold
      cases ctx with
      | some r1 =>
        have hget1 : repoGet s rt.aggregate.id = .ok r1 :=
          repoGet_ok_iff.mpr hold
        obtain ⟨hid, _⟩ := rehydrateLoop_some_inv h2
        rw [hid]
        exact hwf _ _ hget1
      | none =>
        obtain ⟨txId, holder, tr, rest, hev, hid, _⟩ :=
          rehydrate_ok_some (l := rt.recorded_events) h2
        rw [hid]
        exact hhead txId holder tr rest hev
    · exact absurd h2 (by simp)
    · exact absurd h2 (by simp)
  · have hsame : repoGet s' k = repoGet s k := by
      unfold repoGet Root.rehydrate
      rw [hother k hk]
    rw [hsame] at hget2
    exact hwf k r2 hget2

theorem record_that_ok_id_events {r r' : Root} {ev : TransactionEvent}
    (h : r.record_that ev = (r', .ok)) :
    r'.aggregate.id = r.aggregate.id ∧
    r'.recorded_events = r.recorded_events ++ [ev] := by
  obtain ⟨happ, hshape⟩ := record_that_ok_inversion h
  exact ⟨apply_some_preserves_id happ, by rw [hshape]⟩

theorem get_record_save_preserves_wf {s s' : InMemory Nat TransactionEvent}
    {t : Transaction} {root root' : Root} {ev : TransactionEvent}
    (hwf : StoreWF s) (hget : repoGet s t.client_id = .ok root)
    (hrec : root.record_that ev = (root', .ok))
    (hne : ∀ txId holder tr, ev ≠ .wasOpened txId holder tr)
    (hsave : repoSave s root' = .ok s') : StoreWF s' := by
  refine repoSave_preserves_wf hwf hsave ?_
  intro txId holder tr rest heq
  obtain ⟨hid, hev⟩ := record_that_ok_id_events hrec
  rw [hev, repoGet_ok_events hget] at heq
  simp only [List.nil_append] at heq
  injection heq with hhead _
  exact absurd hhead (hne txId holder tr)

theorem handleExisting_preserves_wf {s s' : InMemory Nat TransactionEvent}
    {t : Transaction} {method : Root → Transaction → Root × COut}
    (hwf : StoreWF s) (h : handleExisting s t method = .ok s')
    (hm : ∀ root root', method root t = (root', .ok) →
      ∃ ev, root.record_that ev = (root', .ok) ∧
        ∀ txId holder tr, ev ≠ .wasOpened txId holder tr) :
    StoreWF s' := by
  unfold handleExisting at h
  split at h
  · rename_i root hget
    split at h
    · rename_i root' heq
      split at h
      · rename_i s2 hsave
        injection h with h1
        subst h1
        obtain ⟨ev, hrec, hne⟩ := hm root root' heq
        exact get_record_save_preserves_wf hwf hget hrec hne hsave
      · exact absurd h (by simp)
    · exact absurd h (by simp)
    · exact absurd h (by simp)
  · exact absurd h (by simp)
  · exact absurd h (by simp)

theorem handle_ok_preserves_wf {s s' : InMemory Nat TransactionEvent}
    {t : Transaction} (hwf : StoreWF s) (h : handle s t = .ok s') :
    StoreWF s' := by
  unfold handle at h
  split at h
  · -- Deposit arm
    split at h
    · rename_i root hget
      split at h
      · rename_i root' heq
        split at h
        · rename_i s2 hsave
          injection h with h1
          subst h1
          obtain ⟨x, _, _, _, _, hrec⟩ := deposit_ok_inversion heq
          exact get_record_save_preserves_wf hwf hget hrec
            (fun txId holder tr => by simp) hsave
        · exact absurd h (by simp)
      · exact absurd h (by simp)
      · exact absurd h (by simp)
    · rename_i e hget
      split at h
      · rename_i root hopen
        split at h
        · rename_i s2 hsave
          injection h with h1
          subst h1
          refine repoSave_preserves_wf hwf hsave ?_
          intro txId holder tr rest heq
          obtain ⟨x, ham, hneg, hr⟩ := openAccount_ok_inversion hopen
          subst hr
          injection heq with hhead _
          injection hhead with i1 i2 i3
          exact i2.symm
        · exact absurd h (by simp)
      · exact absurd h (by simp)
      · exact absurd h (by simp)
    · exact absurd h (by simp)
  · refine handleExisting_preserves_wf hwf h ?_
    intro root root' heq
    obtain ⟨x, _, _, _, _, _, hrec⟩ := withdrawal_ok_inversion heq
    exact ⟨_, hrec, fun txId holder tr => by simp⟩
  · refine handleExisting_preserves_wf hwf h ?_
    intro root root' heq
    obtain ⟨dtx, x, _, _, _, _, hrec⟩ := dispute_ok_inversion heq
    exact ⟨_, hrec, fun txId holder tr => by simp⟩
  · refine handleExisting_preserves_wf hwf h ?_
    intro root root' heq
    obtain ⟨dtx, x, _, _, _, _, hrec⟩ := resolve_ok_inversion heq
    exact ⟨_, hrec, fun txId holder tr => by simp⟩
  · refine handleExisting_preserves_wf hwf h ?_
    intro root root' heq
    obtain ⟨dtx, x, _, _, _, _, hrec⟩ := chargeback_ok_inversion heq
    exact ⟨_, hrec, fun txId holder tr => by simp⟩

theorem storeWF_empty : StoreWF InMemory.empty := by
  intro k r h
  have h2 := repoGet_ok_iff.mp h
  simp [InMemory.streamAll, InMemory.streamOf, InMemory.empty, alookup,
        Root.rehydrate, rehydrateLoop] at h2

theorem sortedInsert_mem (x y : Nat) (l : List Nat) :
    y ∈ sortedInsert x l ↔ y = x ∨ y ∈ l := by
  induction l with
  | nil => simp [sortedInsert]
  | cons z rest ih =>
    simp only [sortedInsert]
    split_ifs with h1 h2
    · simp [List.mem_cons]
    · subst h2
      simp [List.mem_cons]
    · simp only [List.mem_cons, ih]
      tauto

theorem sortedInsert_head (x : Nat) (l : List Nat) :
    (sortedInsert x l).head? = some x ∨ (sortedInsert x l).head? = l.head? := by
  cases l with
  | nil => left; rfl
  | cons z rest =>
    simp only [sortedInsert]
    split_ifs with h1 h2
    · left; rfl
    · right; rfl
    · right; rfl

theorem sortedInsert_chain (x : Nat) : ∀ {l : List Nat},
    List.Chain' (· < ·) l → List.Chain' (· < ·) (sortedInsert x l) := by
  intro l
  induction l with
  | nil =>
    intro _
    simp [sortedInsert]
  | cons z rest ih =>
    intro h0
    have h := List.chain'_cons'.mp h0
    simp only [sortedInsert]
    split_ifs with h1 h2
    · exact List.chain'_cons'.mpr ⟨by simp [h1], h0⟩
    · exact h0
    · have hzx : z < x := by omega
      refine List.chain'_cons'.mpr ⟨?_, ih h.2⟩
      intro b hb
      rcases sortedInsert_head x rest with hh | hh
      · rw [hh] at hb
        simp at hb
        subst hb
        exact hzx
      · rw [hh] at hb
        exact h.1 b hb

theorem processAll_inv {txs : List Transaction} : ∀ {s obs s' obs'},
    processAll s obs txs = some (s', obs') →
    (List.Chain' (· < ·) obs → List.Chain' (· < ·) obs') ∧
    (∀ y, y ∈ obs' ↔ y ∈ txs.map (·.client_id) ∨ y ∈ obs) ∧
    (StoreWF s → StoreWF s') := by
  induction txs with
  | nil =>
    intro s obs s' obs' h
    simp only [processAll] at h
    injection h with h1
    have hs : s = s' := congrArg Prod.fst h1
    have hobs : obs = obs' := congrArg Prod.snd h1
    subst hs
    subst hobs
    exact ⟨id, by simp, id⟩
  | cons t rest ih =>
    intro s obs s' obs' h
    unfold processAll at h
    split at h
    · rename_i s2 hh
      obtain ⟨c1, c2, c3⟩ := ih h
      refine ⟨fun hc => c1 (sortedInsert_chain _ hc), fun y => ?_,
              fun hwf => c3 (handle_ok_preserves_wf hwf hh)⟩
      rw [c2 y, sortedInsert_mem]
      simp only [List.map_cons, List.mem_cons]
      tauto
    · rename_i e hh
      obtain ⟨c1, c2, c3⟩ := ih h
      refine ⟨fun hc => c1 (sortedInsert_chain _ hc), fun y => ?_, c3⟩
      rw [c2 y, sortedInsert_mem]
      simp only [List.map_cons, List.mem_cons]
      tauto
    · exact absurd h (by simp)

theorem emit_all_ok {s : InMemory Nat TransactionEvent} (hwf : StoreWF s) :
    ∀ {obs : List Nat}, (∀ id ∈ obs, ∃ r, repoGet s id = .ok r) →
    ∃ rows, emit s obs = .ok rows ∧
      rows.map AccountSnapShot.client = obs := by
  intro obs
  induction obs with
  | nil => exact fun _ => ⟨[], rfl, rfl⟩
  | cons id rest ih =>
    intro hok
    obtain ⟨r, hr⟩ := hok id (by simp)
    obtain ⟨rows, hrows, hmap⟩ := ih (fun i hi => hok i (by simp [hi]))
    refine ⟨r.snapshot :: rows, ?_, ?_⟩
    · unfold emit
      rw [hr, hrows]
    · simp only [List.map_cons, hmap, List.cons.injEq]
      exact ⟨hwf id r hr, trivial⟩

/-- C7 (amended): when the pipeline run completes, the observed-client
set is the ascending duplicate-free set of all client ids appearing in
the input, and — provided the repository can load an account for every
observed client — snapshot emission succeeds with exactly one row per
observed client, in that ascending order, each row carrying its
client's id.  (A client whose every transaction was rejected has no
stored account: `get` fails with `NotFound` and the run's emission
loop aborts instead — see the counterexample.) -/
theorem pipeline_emits_one_row_per_observed_client
    {txs : List Transaction} {s' : InMemory Nat TransactionEvent}
    {obs : List Nat}
    (hrun : processAll InMemory.empty [] txs = some (s', obs))
    (hok : ∀ id ∈ obs, ∃ r, repoGet s' id = .ok r) :
    ∃ rows, emit s' obs = .ok rows ∧
      rows.map AccountSnapShot.client = obs ∧
      List.Chain' (· < ·) obs ∧
      (∀ y, y ∈ obs ↔ y ∈ txs.map (·.client_id)) := by
  obtain ⟨c1, c2, c3⟩ := processAll_inv hrun
  obtain ⟨rows, hrows, hmap⟩ := emit_all_ok (c3 storeWF_empty) hok
  refine ⟨rows, hrows, hmap, c1 (by simp), fun y => ?_⟩
  rw [c2 y]
  simp

theorem pipeline_emits_one_row_per_observed_client_witness :
    ∃ rows, emit pipeRun1.1 pipeRun1.2 = .ok rows ∧
      rows.map AccountSnapShot.client = pipeRun1.2 ∧
      List.Chain' (· < ·) pipeRun1.2 ∧
      (∀ y, y ∈ pipeRun1.2 ↔ y ∈ [txDep1].map (·.client_id)) :=
  pipeline_emits_one_row_per_observed_client (by decide)
    (by
      intro id hid
      have h1 : pipeRun1.2 = [1] := by decide
      rw [h1] at hid
      simp at hid
      subst hid
      exact ⟨{ aggregate := { id := 1
                              balance := { available := 10, held := 0 }
                              pending_transactions := [(1, txDep1)]
                              locked := false }
               version := 1
               recorded_events := [] }, by decide⟩)

/-- C7 counterexample to the claim as stated: a single withdrawal for a
fresh client 1 is rejected (`NotFound`), the client is still observed,
and the emission loop then fails with `NotFound` instead of emitting a
row for client 1 — the final output contains no row for an observed
client and snapshot emission fails. -/
theorem rejected_client_breaks_snapshot_emission_counterexample :
    processAll InMemory.empty [] [txWd2] = some (InMemory.empty, [1]) ∧
    emit InMemory.empty [1] = .err .notFound := by
  decide
